import Mathlib

/-!
ObjectPool: a shallow embedding of `objectpool.hpp`.

The pool of `src/objectpool.hpp` is embedded as a record of its data members
together with the part of the environment its member functions act on: the
injected callables.  Every invocation of `m_fabric`, `m_freeFunc` or
`m_backFunc` is appended to a call trace, so that "is called", "is called
exactly once" and "is called on the objects in this order" are statements
about that trace.

Modelling decisions:

* `Object*` is a natural number (an address); `nullptr` is `0`.
* `m_fabric` is a callable with side effects; it is given by the value its
  `k`-th invocation returns, and the pool record counts the invocations.
* `int m_normalSize` and `std::atomic_int m_objsCount` are mathematical
  integers: the member functions only add or subtract one and compare, and the
  counter is within `int` range as long as fewer than `2^31` handles are
  outstanding.  The `int startSize` loop variable of the constructor is
  decremented with 32-bit wrap-around, since the loop tests it against zero.
* The member functions are executed one at a time (the mutex is not
  modelled), which is the sequential behaviour of the class.
* `delete this` runs the destructor; the record then has `destructed = true`.
* A handle is the pointer it holds; its destruction runs `freeObject` on that
  pointer unless it is null, as `std::unique_ptr` does.
-/

namespace ObjectPoolModel

/-- Type `Object*`: the address of a pooled object. -/
abbrev ObjPtr := Nat

/-- The null pointer. -/
def nullptr : ObjPtr := 0

/-- One invocation of an injected callable: `m_fabric()` with the pointer it
returned, `m_freeFunc(object)` or `m_backFunc(object)`. -/
inductive Call where
  | m_fabric (result : ObjPtr)
  | m_freeFunc (object : ObjPtr)
  | m_backFunc (object : ObjPtr)
  deriving DecidableEq, Repr

/-- Is the call an invocation of `m_fabric` (create)? -/
def Call.isFabric : Call → Bool
  | .m_fabric _ => true
  | _ => false

/-- Is the call an invocation of `m_freeFunc` (discard)? -/
def Call.isFree : Call → Bool
  | .m_freeFunc _ => true
  | _ => false

/-- Is the call an invocation of `m_backFunc` (recycle)? -/
def Call.isBack : Call → Bool
  | .m_backFunc _ => true
  | _ => false

/-- The data members of `class ObjectPool` (objectpool.hpp:30-37) and the
environment of its callables. -/
structure ObjectPool where
  /-- Member `std::deque<Object*> m_objs`: idle storage, front first. -/
  m_objs : List ObjPtr
  /-- Member `ObjectFabric m_fabric`: the value returned by the `k`-th invocation. -/
  m_fabric : Nat → ObjPtr
  /-- Member `int m_normalSize`. -/
  m_normalSize : Int
  /-- Member `bool m_shouldDestroy`: the draining flag. -/
  m_shouldDestroy : Bool
  /-- Member `std::atomic_int m_objsCount`: the live counter. -/
  m_objsCount : Int
  /-- Number of invocations of `m_fabric` so far. -/
  fabricCalls : Nat
  /-- Every invocation of an injected callable so far, oldest first. -/
  trace : List Call
  /-- Whether `~ObjectPool` has run on this pool. -/
  destructed : Bool

namespace ObjectPool

/-- The statement `m_fabric()`: the pool after the call and the returned pointer. -/
def callFabric (p : ObjectPool) : ObjectPool × ObjPtr :=
  ({ p with fabricCalls := p.fabricCalls + 1,
            trace := p.trace ++ [Call.m_fabric (p.m_fabric p.fabricCalls)] },
   p.m_fabric p.fabricCalls)

/-- The statement `m_freeFunc(object)`. -/
def callFreeFunc (p : ObjectPool) (object : ObjPtr) : ObjectPool :=
  { p with trace := p.trace ++ [Call.m_freeFunc object] }

/-- The statement `m_backFunc(object)`. -/
def callBackFunc (p : ObjectPool) (object : ObjPtr) : ObjectPool :=
  { p with trace := p.trace ++ [Call.m_backFunc object] }

/-- Function `ObjectPool::object()` (objectpool.hpp:63-84): the pool after the call and
the pointer wrapped in the returned `ObjectPtr`. -/
def object (p : ObjectPool) : ObjectPool × ObjPtr :=
  -- Object *con = nullptr; if (!m_objs.empty()) { con = front(); pop_front(); }
  let popped : ObjectPool × ObjPtr :=
    match p.m_objs with
    | [] => (p, nullptr)
    | front :: rest => ({ p with m_objs := rest }, front)
  -- if (!con) { con = m_fabric(); }
  let made : ObjectPool × ObjPtr :=
    if popped.2 = nullptr then popped.1.callFabric else popped
  -- m_objsCount++;
  ({ made.1 with m_objsCount := made.1.m_objsCount + 1 }, made.2)

/-- The 32-bit two's-complement value of an integer. -/
def wrapInt32 (x : Int) : Int := (x + 2147483648) % 4294967296 - 2147483648

/-- The body of the constructor's loop (objectpool.hpp:103):
`m_objs.push_back(m_fabric())`. -/
def pushFabric (p : ObjectPool) : ObjectPool :=
  { p.callFabric.1 with m_objs := p.callFabric.1.m_objs ++ [p.callFabric.2] }

/-- The constructor's loop (objectpool.hpp:101-105):
`while (startSize) { m_objs.push_back(m_fabric()); startSize--; }`. -/
def ctorLoop (p : ObjectPool) (startSize : Int) : ObjectPool :=
  if startSize = 0 then p
  else ctorLoop p.pushFabric (wrapInt32 (startSize - 1))
termination_by
  if -2147483648 ≤ startSize ∧ startSize < 2147483648 then (startSize % 4294967296).toNat
  else 4294967296
decreasing_by
  simp only [wrapInt32]
  split_ifs <;> omega

/-- Function `ObjectPool::ObjectPool(fabric, freeFunc, backFunc, startSize, normalSize)`
(objectpool.hpp:86-106), the constructor.  `freeFunc` and `backFunc` are
represented by the trace entries their invocations leave. -/
def ctor (fabric : Nat → ObjPtr) (startSize normalSize : Int) : ObjectPool :=
  ctorLoop
    { m_objs := [], m_fabric := fabric, m_normalSize := normalSize,
      m_shouldDestroy := false, m_objsCount := 0,
      fabricCalls := 0, trace := [], destructed := false }
    startSize

/-- Function `ObjectPool::destroy()` (objectpool.hpp:108-115). -/
def destroy (p : ObjectPool) : ObjectPool :=
  { p with m_shouldDestroy := true }

/-- Function `ObjectPool::count()` (objectpool.hpp:143-147). -/
def count (p : ObjectPool) : Int := p.m_objsCount

/-- The loop of `~ObjectPool` (objectpool.hpp:153-157) on the idle storage
`objs` and the trace so far: `m_freeFunc(m_objs.front()); m_objs.pop_front();`
until the storage is empty.  Returns the storage and the trace at exit. -/
def dtorLoop : List ObjPtr → List Call → List ObjPtr × List Call
  | [], trace => ([], trace)
  | front :: rest, trace => dtorLoop rest (trace ++ [Call.m_freeFunc front])

/-- Function `ObjectPool::~ObjectPool()` (objectpool.hpp:150-158). -/
def destructor (p : ObjectPool) : ObjectPool :=
  { p with m_objs := (dtorLoop p.m_objs p.trace).1,
           trace := (dtorLoop p.m_objs p.trace).2,
           destructed := true }

/-- The disposal condition of `freeObject` (objectpool.hpp:121):
`m_shouldDestroy || (m_objsCount > m_normalSize && m_normalSize > 0)`. -/
def shouldFree (p : ObjectPool) : Bool :=
  p.m_shouldDestroy || (decide (p.m_objsCount > p.m_normalSize) && decide (p.m_normalSize > 0))

/-- Lines 121-129 of `freeObject`: the disposal of the returned object. -/
def freeObjectDispose (p : ObjectPool) (object : ObjPtr) : ObjectPool :=
  if p.shouldFree then
    p.callFreeFunc object
  else
    { p.callBackFunc object with m_objs := (p.callBackFunc object).m_objs ++ [object] }

/-- Line 130 of `freeObject`: `m_objsCount--`. -/
def freeObjectDecrement (p : ObjectPool) : ObjectPool :=
  { p with m_objsCount := p.m_objsCount - 1 }

/-- Lines 132-139 of `freeObject`: when the pool is draining and the counter
is zero, `m_objsCount++` and `delete this`. -/
def freeObjectTeardown (p : ObjectPool) : ObjectPool :=
  if p.m_shouldDestroy && decide (p.m_objsCount = 0) then
    destructor { p with m_objsCount := p.m_objsCount + 1 }
  else p

/-- Function `ObjectPool::freeObject(object)` (objectpool.hpp:117-141), the deleter of
every `ObjectPtr` handed out by `object()`. -/
def freeObject (p : ObjectPool) (object : ObjPtr) : ObjectPool :=
  freeObjectTeardown (freeObjectDecrement (freeObjectDispose p object))


/-- Calling `object()` `n` times in a row: the pool afterwards and the
pointers returned, in the order of the calls. -/
def acquireN : Nat → ObjectPool → ObjectPool × List ObjPtr
  | 0, p => (p, [])
  | n + 1, p => ((acquireN n p.object.1).1, p.object.2 :: (acquireN n p.object.1).2)

/-- Number of `m_fabric` (create) invocations in the trace. -/
def creates (p : ObjectPool) : Nat := p.trace.countP Call.isFabric

/-- Number of `m_freeFunc` (discard) invocations in the trace. -/
def discards (p : ObjectPool) : Nat := p.trace.countP Call.isFree

/-- Number of `m_backFunc` (recycle) invocations in the trace. -/
def recycles (p : ObjectPool) : Nat := p.trace.countP Call.isBack

/-- The destructor of an `ObjectPtr` holding `object`.  `ObjectPtr` is a
`std::unique_ptr<Object, std::function<void(Object*)>>` (objectpool.hpp:14)
whose deleter is `freeObject` (objectpool.hpp:83); a `std::unique_ptr` runs
its deleter only when the pointer it holds is not null, so a handle on
`nullptr` goes away without any call into the pool. -/
def dropHandle (p : ObjectPool) (object : ObjPtr) : ObjectPool :=
  if object = nullptr then p else p.freeObject object

/-- One cycle of `object()` immediately followed by the destruction of the
handle it returned, as in the loop of `TEST_F(PoolTest, BackToPool)`. -/
def cycle (p : ObjectPool) : ObjectPool :=
  p.object.1.dropHandle p.object.2

/-- Repeating the acquire-release cycle `m` times. -/
def cycles : Nat → ObjectPool → ObjectPool
  | 0, p => p
  | m + 1, p => cycles m p.cycle

/-- The pointers returned by the `m_fabric` calls of the trace, oldest first. -/
def created (p : ObjectPool) : List ObjPtr :=
  p.trace.filterMap (fun call => match call with | .m_fabric r => some r | _ => none)

/-- The pointers passed to the `m_freeFunc` calls of the trace, oldest first. -/
def discarded (p : ObjectPool) : List ObjPtr :=
  p.trace.filterMap (fun call => match call with | .m_freeFunc o => some o | _ => none)

/-- Whether `freeObject(object)` takes the branch of lines 132-139, that is
whether the test `m_shouldDestroy && m_objsCount == 0` of line 132 holds in
the state that reaches it, so that `delete this` runs the destructor. -/
def freeObjectTearsDown (p : ObjectPool) (object : ObjPtr) : Bool :=
  (freeObjectDecrement (p.freeObjectDispose object)).m_shouldDestroy &&
    decide ((freeObjectDecrement (p.freeObjectDispose object)).m_objsCount = 0)

/-- An example state: normal size 5, the object 12 idle, two handles
outstanding (on 10 and 11), as left by a constructor with start size 3 and
two acquires (the trace is started afresh). -/
def exampleTwoLent : ObjectPool :=
  { m_objs := [12], m_fabric := fun k => k + 10, m_normalSize := 5,
    m_shouldDestroy := false, m_objsCount := 2, fabricCalls := 3,
    trace := [], destructed := false }

/-- An example state with the given idle storage, no handle outstanding and
a fabric returning 10, 11, ... of which two have been made. -/
def exampleIdle (idle : List ObjPtr) : ObjectPool :=
  { m_objs := idle, m_fabric := fun k => k + 10, m_normalSize := 5,
    m_shouldDestroy := false, m_objsCount := 0, fabricCalls := 2,
    trace := [], destructed := false }

end ObjectPool

/-- The data members of `class ObjectPoolBuilder` (objectpool.hpp:56-60).  A
`std::function` member is empty until it is set: the fabric is `none` or the
callable, and of the two `void(Object*)` callables, whose invocations the pool
records in its trace, only whether they are set is kept. -/
structure ObjectPoolBuilder where
  m_connectionBackToPoolFunc : Bool
  m_connectionFreeFunc : Bool
  m_connectionFabric : Option (Nat → ObjPtr)
  m_startPoolSize : Int
  m_normalPoolSize : Int

namespace ObjectPoolBuilder

/-- Function `ObjectPoolBuilder::ObjectPoolBuilder()` (objectpool.hpp:198-204). -/
def ctor : ObjectPoolBuilder :=
  { m_connectionBackToPoolFunc := false, m_connectionFreeFunc := false,
    m_connectionFabric := none, m_startPoolSize := 3, m_normalPoolSize := -1 }

/-- Function `setObjectBackToPoolFunction` (objectpool.hpp:160-166). -/
def setObjectBackToPoolFunction (b : ObjectPoolBuilder) : ObjectPoolBuilder :=
  { b with m_connectionBackToPoolFunc := true }

/-- Function `setObjectFreeFunction` (objectpool.hpp:168-174). -/
def setObjectFreeFunction (b : ObjectPoolBuilder) : ObjectPoolBuilder :=
  { b with m_connectionFreeFunc := true }

/-- Function `setObjectFabric` (objectpool.hpp:176-182). -/
def setObjectFabric (b : ObjectPoolBuilder) (connectionFabric : Nat → ObjPtr) :
    ObjectPoolBuilder :=
  { b with m_connectionFabric := some connectionFabric }

/-- Function `setStartPoolSize` (objectpool.hpp:184-189). -/
def setStartPoolSize (b : ObjectPoolBuilder) (size : Int) : ObjectPoolBuilder :=
  { b with m_startPoolSize := size }

/-- Function `setNormalPoolSize` (objectpool.hpp:191-196). -/
def setNormalPoolSize (b : ObjectPoolBuilder) (size : Int) : ObjectPoolBuilder :=
  { b with m_normalPoolSize := size }

/-- The builder after the defaulting statements of `build()`
(objectpool.hpp:209-227).  `newObject` is the default fabric
`new Object()`, given like every fabric by the value of its `k`-th call. -/
def buildDefaults (b : ObjectPoolBuilder) (newObject : Nat → ObjPtr) : ObjectPoolBuilder :=
  { m_connectionFabric := some (b.m_connectionFabric.getD newObject),
    m_connectionBackToPoolFunc := true,
    m_connectionFreeFunc := true,
    m_startPoolSize := b.m_startPoolSize,
    m_normalPoolSize := if b.m_normalPoolSize = 0 then b.m_startPoolSize else b.m_normalPoolSize }

/-- Function `ObjectPoolBuilder::build()` (objectpool.hpp:206-238): the builder after
the call and the pool held by the returned `Ptr`, whose deleter is
`destroy()`. -/
def build (b : ObjectPoolBuilder) (newObject : Nat → ObjPtr) : ObjectPoolBuilder × ObjectPool :=
  (b.buildDefaults newObject,
   ObjectPool.ctor (b.m_connectionFabric.getD newObject)
     (b.buildDefaults newObject).m_startPoolSize (b.buildDefaults newObject).m_normalPoolSize)

/-- A call of one of the two size setters of the builder. -/
inductive SetterCall where
  | start (size : Int)
  | normal (size : Int)
  deriving DecidableEq, Repr

/-- The builder after one size setter call. -/
def applySetter (b : ObjectPoolBuilder) : SetterCall → ObjectPoolBuilder
  | .start size => b.setStartPoolSize size
  | .normal size => b.setNormalPoolSize size

/-- The builder after a chain of size setter calls, first to last. -/
def applySetters (b : ObjectPoolBuilder) (calls : List SetterCall) : ObjectPoolBuilder :=
  calls.foldl applySetter b

/-- The value of the last `setStartPoolSize` call of a chain, or `dflt` when
the chain has none. -/
def lastStart (dflt : Int) : List SetterCall → Int
  | [] => dflt
  | .start size :: calls => lastStart size calls
  | .normal _ :: calls => lastStart dflt calls

/-- The value of the last `setNormalPoolSize` call of a chain, or `dflt` when
the chain has none. -/
def lastNormal (dflt : Int) : List SetterCall → Int
  | [] => dflt
  | .start _ :: calls => lastNormal dflt calls
  | .normal size :: calls => lastNormal size calls

end ObjectPoolBuilder

/-- A pool together with the pointers held by the outstanding `ObjectPtr`
handles, oldest first. -/
structure Client where
  pool : ObjectPool
  lent : List ObjPtr

/-- The operations a caller performs on a pool: `object()`, letting the
handle of `object` go (which runs `freeObject(object)` unless the handle
holds `nullptr`), and `destroy()`. -/
inductive Op where
  | acquire
  | release (object : ObjPtr)
  | destroy
  deriving DecidableEq, Repr

namespace Client

/-- One operation of the caller. -/
def step (c : Client) : Op → Client
  | .acquire => { pool := c.pool.object.1, lent := c.lent ++ [c.pool.object.2] }
  | .release object => { pool := c.pool.dropHandle object, lent := c.lent.erase object }
  | .destroy => { c with pool := c.pool.destroy }

/-- A sequence of operations, first to last. -/
def run (c : Client) (ops : List Op) : Client := ops.foldl step c

/-- Every release in the sequence is of a handle outstanding at that moment. -/
def valid : Client → List Op → Bool
  | _, [] => true
  | c, .release object :: ops => decide (object ∈ c.lent) && valid (c.step (.release object)) ops
  | c, op :: ops => valid (c.step op) ops

/-- The number of outstanding handles never exceeds `N`: neither before the
sequence nor after any of its operations. -/
def bounded (N : Int) : Client → List Op → Bool
  | c, [] => decide ((c.lent.length : Int) ≤ N)
  | c, op :: ops => decide ((c.lent.length : Int) ≤ N) && bounded N (c.step op) ops

/-- No outstanding handle holds the null pointer: neither before the sequence
nor after any of its operations. -/
def nonNull : Client → List Op → Bool
  | c, [] => c.lent.all (fun o => decide (o ≠ nullptr))
  | c, op :: ops => c.lent.all (fun o => decide (o ≠ nullptr)) && nonNull (c.step op) ops

/-- The sequence consists of acquires and releases only. -/
def noDestroy (ops : List Op) : Bool := ops.all (fun op => decide (op ≠ Op.destroy))

/-- Number of `acquire` operations in a sequence. -/
def acquires (ops : List Op) : Nat := ops.countP (fun op => decide (op = Op.acquire))

/-- Number of `release` operations in a sequence. -/
def releases (ops : List Op) : Nat :=
  ops.countP (fun op => match op with | .release _ => true | _ => false)

/-- The caller of a freshly constructed pool: no handle is outstanding. -/
def fresh (fabric : Nat → ObjPtr) (startSize normalSize : Int) : Client :=
  { pool := ObjectPool.ctor fabric startSize normalSize, lent := [] }

/-- Number of releases of the sequence that run `freeObject` and take its
teardown branch, i.e. number of times `delete this` runs. -/
def teardowns : Client → List Op → Nat
  | _, [] => 0
  | c, .release object :: ops =>
      (if decide (object ≠ nullptr) && c.pool.freeObjectTearsDown object then 1 else 0) +
        teardowns (c.step (.release object)) ops
  | c, op :: ops => teardowns (c.step op) ops

/-- The operations of the spec's scenario for `startSize = 3`,
`normalSize = 5` with a fabric returning 10, 11, ...: five acquires (lending
10 to 14), the release of all five, and one more acquire and release. -/
def scenarioOps : List Op :=
  [.acquire, .acquire, .acquire, .acquire, .acquire,
   .release 10, .release 11, .release 12, .release 13, .release 14,
   .acquire, .release 10]

end Client

/-! ## Auxiliary facts -/

namespace ObjectPool

theorem ctorLoop_iterate (n : Nat) : ∀ (p : ObjectPool) (s : Int),
    -2147483648 ≤ s → s < 2147483648 → (s % 4294967296).toNat = n →
    ctorLoop p s = pushFabric^[n] p := by
  induction n with
  | zero =>
    intro p s h1 h2 h3
    have hs : s = 0 := by omega
    subst hs
    rw [ctorLoop]; simp
  | succ n ih =>
    intro p s h1 h2 h3
    have hs : s ≠ 0 := by
      rintro rfl
      simp at h3
    rw [ctorLoop, if_neg hs, Function.iterate_succ_apply]
    apply ih
    · simp only [wrapInt32]; omega
    · simp only [wrapInt32]; omega
    · simp only [wrapInt32]; omega

theorem ctorLoop_nat (p : ObjectPool) (n : Nat) (h : n < 2147483648) :
    ctorLoop p (n : Int) = pushFabric^[n] p := by
  apply ctorLoop_iterate <;> omega

theorem iterate_pushFabric (n : Nat) (p : ObjectPool) :
    pushFabric^[n] p =
      { p with
        m_objs := p.m_objs ++ (List.range n).map (fun k => p.m_fabric (p.fabricCalls + k)),
        fabricCalls := p.fabricCalls + n,
        trace := p.trace ++
          (List.range n).map (fun k => Call.m_fabric (p.m_fabric (p.fabricCalls + k))) } := by
  induction n with
  | zero => simp
  | succ n ih =>
    rw [Function.iterate_succ_apply', ih]
    simp [pushFabric, callFabric, List.range_succ, Nat.add_assoc]

theorem dtorLoop_eq (objs : List ObjPtr) (trace : List Call) :
    dtorLoop objs trace = ([], trace ++ objs.map Call.m_freeFunc) := by
  induction objs generalizing trace with
  | nil => simp [dtorLoop]
  | cons o rest ih => simp [dtorLoop, ih]

theorem shouldFree_iff (p : ObjectPool) :
    p.shouldFree = true ↔
      (p.m_shouldDestroy = true ∨ (p.m_normalSize > 0 ∧ p.m_objsCount > p.m_normalSize)) := by
  simp only [shouldFree, Bool.or_eq_true, Bool.and_eq_true, decide_eq_true_eq]
  tauto

/-- The recycle path of `freeObject`. -/
theorem freeObject_recycle (p : ObjectPool) (o : ObjPtr) (h : p.shouldFree = false) :
    p.freeObject o =
      { p with m_objs := p.m_objs ++ [o], trace := p.trace ++ [Call.m_backFunc o],
               m_objsCount := p.m_objsCount - 1 } := by
  have hd : p.m_shouldDestroy = false := by
    cases hsd : p.m_shouldDestroy
    · rfl
    · simp [shouldFree, hsd] at h
  simp [freeObject, freeObjectTeardown, freeObjectDecrement, freeObjectDispose, h,
    callBackFunc, hd]

/-- The discard path of `freeObject` when the release does not tear the pool down. -/
theorem freeObject_discard (p : ObjectPool) (o : ObjPtr) (h : p.shouldFree = true)
    (h2 : ¬ (p.m_shouldDestroy = true ∧ p.m_objsCount = 1)) :
    p.freeObject o =
      { p with trace := p.trace ++ [Call.m_freeFunc o], m_objsCount := p.m_objsCount - 1 } := by
  have h3 : ¬ (p.m_shouldDestroy = true ∧ p.m_objsCount - 1 = 0) := by
    rintro ⟨a, b⟩
    exact h2 ⟨a, by omega⟩
  simp only [freeObject, freeObjectTeardown, freeObjectDecrement, freeObjectDispose, h,
    callFreeFunc, if_true, Bool.and_eq_true, decide_eq_true_eq]
  rw [if_neg h3]

/-- The release that brings the counter of a draining pool to zero. -/
theorem freeObject_teardown (p : ObjectPool) (o : ObjPtr) (h : p.m_shouldDestroy = true)
    (h2 : p.m_objsCount = 1) :
    p.freeObject o =
      { p with m_objs := [], trace := p.trace ++ Call.m_freeFunc o :: p.m_objs.map Call.m_freeFunc,
               m_objsCount := 1, destructed := true } := by
  have hs : p.shouldFree = true := by simp [shouldFree, h]
  simp [freeObject, freeObjectTeardown, freeObjectDecrement, freeObjectDispose, hs,
    callFreeFunc, h, h2, destructor, dtorLoop_eq]

/-- Closed form of a pool right after construction with a start size within
the non-negative `int` range. -/
theorem ctor_eq (fabric : Nat → ObjPtr) (n : Nat) (normalSize : Int) (h : n < 2147483648) :
    ctor fabric (n : Int) normalSize =
      { m_objs := (List.range n).map fabric, m_fabric := fabric, m_normalSize := normalSize,
        m_shouldDestroy := false, m_objsCount := 0, fabricCalls := n,
        trace := (List.range n).map (fun k => Call.m_fabric (fabric k)),
        destructed := false } := by
  rw [ctor, ctorLoop_nat _ n h, iterate_pushFabric]
  simp

theorem countP_isBack_map_freeFunc (os : List ObjPtr) :
    (os.map Call.m_freeFunc).countP Call.isBack = 0 := by
  induction os with
  | nil => rfl
  | cons o os ih => simp [List.countP_cons, Call.isBack, ih]

theorem countP_isFree_map_freeFunc (os : List ObjPtr) :
    (os.map Call.m_freeFunc).countP Call.isFree = os.length := by
  induction os with
  | nil => rfl
  | cons o os ih => simp [List.countP_cons, Call.isFree, ih]

/-- Behaviour of `object()` on empty idle storage: one `m_fabric` call. -/
theorem object_empty (p : ObjectPool) (h : p.m_objs = []) :
    p.object =
      ({ p with fabricCalls := p.fabricCalls + 1,
                trace := p.trace ++ [Call.m_fabric (p.m_fabric p.fabricCalls)],
                m_objsCount := p.m_objsCount + 1 },
       p.m_fabric p.fabricCalls) := by
  simp [object, h, callFabric]

/-- Behaviour of `object()` when the front of idle storage is a non-null pointer. -/
theorem object_front (p : ObjectPool) (o : ObjPtr) (rest : List ObjPtr)
    (h : p.m_objs = o :: rest) (ho : o ≠ nullptr) :
    p.object = ({ p with m_objs := rest, m_objsCount := p.m_objsCount + 1 }, o) := by
  simp [object, h, ho]

/-- Behaviour of `object()` when the front of idle storage is the null pointer: the entry
is popped and `m_fabric` is called all the same. -/
theorem object_null_front (p : ObjectPool) (rest : List ObjPtr)
    (h : p.m_objs = nullptr :: rest) :
    p.object =
      ({ p with m_objs := rest, fabricCalls := p.fabricCalls + 1,
                trace := p.trace ++ [Call.m_fabric (p.m_fabric p.fabricCalls)],
                m_objsCount := p.m_objsCount + 1 },
       p.m_fabric p.fabricCalls) := by
  simp [object, h, callFabric]

/-- A release recycles exactly when the disposal condition is false. -/
theorem recycled_iff (p : ObjectPool) (o : ObjPtr) :
    (p.freeObject o).trace = p.trace ++ [Call.m_backFunc o] ↔ p.shouldFree = false := by
  constructor
  · intro h
    cases hs : p.shouldFree
    · rfl
    · exfalso
      by_cases ht : p.m_shouldDestroy = true ∧ p.m_objsCount = 1
      · rw [freeObject_teardown p o ht.1 ht.2] at h
        have h2 := List.append_cancel_left h
        simp at h2
      · rw [freeObject_discard p o hs ht] at h
        have h2 := List.append_cancel_left h
        simp at h2
  · intro h
    rw [freeObject_recycle p o h]

/-- Acquiring as many times as there are non-null pointers at the front of
idle storage returns them in their stored order without calling `m_fabric`. -/
theorem acquireN_front (l : List ObjPtr) : ∀ (p : ObjectPool) (rest : List ObjPtr),
    p.m_objs = l ++ rest → (∀ o ∈ l, o ≠ nullptr) →
    acquireN l.length p =
      ({ p with m_objs := rest, m_objsCount := p.m_objsCount + l.length }, l) := by
  induction l with
  | nil =>
    intro p rest h _
    simp only [List.nil_append] at h
    simp [acquireN, ← h]
  | cons o l ih =>
    intro p rest h hnn
    have ho : o ≠ nullptr := hnn o (List.mem_cons_self _ _)
    have hl : ∀ x ∈ l, x ≠ nullptr := fun x hx => hnn x (List.mem_cons_of_mem _ hx)
    have e := object_front p o (l ++ rest) h ho
    simp only [List.length_cons, acquireN, e]
    rw [ih { p with m_objs := l ++ rest, m_objsCount := p.m_objsCount + 1 } rest rfl hl]
    simp only [Nat.cast_add, Nat.cast_one, Prod.mk.injEq, and_true]
    congr 1
    omega

/-- What `object()` never changes, and the counter it increments. -/
theorem object_fields (p : ObjectPool) :
    p.object.1.m_objsCount = p.m_objsCount + 1 ∧
    p.object.1.m_shouldDestroy = p.m_shouldDestroy ∧
    p.object.1.m_normalSize = p.m_normalSize ∧
    p.object.1.destructed = p.destructed ∧
    p.object.1.discards = p.discards ∧
    p.object.1.recycles = p.recycles := by
  cases hm : p.m_objs with
  | nil =>
    rw [object_empty p hm]
    simp [recycles, discards, Call.isBack, Call.isFree]
  | cons front rest =>
    by_cases hf : front = nullptr
    · subst hf
      rw [object_null_front p rest hm]
      simp [recycles, discards, Call.isBack, Call.isFree]
    · rw [object_front p front rest hm hf]
      simp [recycles, discards]

/-- What `freeObject` never changes. -/
theorem freeObject_fields (p : ObjectPool) (o : ObjPtr) :
    (p.freeObject o).m_shouldDestroy = p.m_shouldDestroy ∧
    (p.freeObject o).m_normalSize = p.m_normalSize ∧
    (p.destructed = true → (p.freeObject o).destructed = true) ∧
    ((p.freeObject o).destructed = false → (p.freeObject o).m_objsCount = p.m_objsCount - 1) := by
  cases hs : p.shouldFree
  · rw [freeObject_recycle p o hs]
    simp
  · by_cases ht : p.m_shouldDestroy = true ∧ p.m_objsCount = 1
    · rw [freeObject_teardown p o ht.1 ht.2]
      simp
    · rw [freeObject_discard p o hs ht]
      simp

theorem dropHandle_null (p : ObjectPool) : p.dropHandle nullptr = p := by
  simp [dropHandle]

theorem dropHandle_of_ne (p : ObjectPool) (o : ObjPtr) (h : o ≠ nullptr) :
    p.dropHandle o = p.freeObject o := by
  simp [dropHandle, h]

end ObjectPool

namespace Client

theorem step_release_null (c : Client) :
    c.step (Op.release nullptr) = { c with lent := c.lent.erase nullptr } := by
  simp [step, ObjectPool.dropHandle_null]

theorem step_release_of_ne (c : Client) (o : ObjPtr) (h : o ≠ nullptr) :
    c.step (Op.release o) = { pool := c.pool.freeObject o, lent := c.lent.erase o } := by
  simp [step, ObjectPool.dropHandle_of_ne _ _ h]

theorem run_nil (c : Client) : c.run [] = c := rfl

theorem run_cons (c : Client) (op : Op) (ops : List Op) :
    c.run (op :: ops) = (c.step op).run ops := rfl

theorem run_append (c : Client) (xs ys : List Op) :
    c.run (xs ++ ys) = (c.run xs).run ys := by
  simp [run, List.foldl_append]

theorem valid_cons (c : Client) (op : Op) (ops : List Op) :
    valid c (op :: ops) = true ↔
      ((∀ o, op = Op.release o → o ∈ c.lent) ∧ valid (c.step op) ops = true) := by
  cases op <;> simp [valid]

theorem valid_append (xs : List Op) : ∀ (c : Client) (ys : List Op),
    valid c (xs ++ ys) = true ↔ (valid c xs = true ∧ valid (c.run xs) ys = true) := by
  induction xs with
  | nil => intro c ys; simp [valid, run_nil]
  | cons op xs ih =>
    intro c ys
    rw [List.cons_append, valid_cons, valid_cons, ih, run_cons]
    tauto

theorem bounded_head (N : Int) (c : Client) (ops : List Op) (h : bounded N c ops = true) :
    (c.lent.length : Int) ≤ N := by
  cases ops with
  | nil => simpa [bounded] using h
  | cons op ops =>
    simp only [bounded, Bool.and_eq_true, decide_eq_true_eq] at h
    exact h.1

theorem bounded_append (N : Int) (xs : List Op) : ∀ (c : Client) (ys : List Op),
    bounded N c (xs ++ ys) = true → bounded N (c.run xs) ys = true := by
  induction xs with
  | nil => intro c ys h; simpa [run_nil] using h
  | cons op xs ih =>
    intro c ys h
    simp only [List.cons_append, bounded, Bool.and_eq_true, decide_eq_true_eq] at h
    rw [run_cons]
    exact ih _ _ h.2

theorem bounded_left (N : Int) (xs : List Op) : ∀ (c : Client) (ys : List Op),
    bounded N c (xs ++ ys) = true → bounded N c xs = true := by
  induction xs with
  | nil =>
    intro c ys h
    have := bounded_head N c _ h
    simpa [bounded] using this
  | cons op xs ih =>
    intro c ys h
    simp only [List.cons_append, bounded, Bool.and_eq_true, decide_eq_true_eq] at h ⊢
    exact ⟨h.1, ih _ _ h.2⟩

theorem acquires_append (xs ys : List Op) : acquires (xs ++ ys) = acquires xs + acquires ys := by
  simp [acquires, List.countP_append]

theorem releases_append (xs ys : List Op) : releases (xs ++ ys) = releases xs + releases ys := by
  simp [releases, List.countP_append]

theorem nonNull_head (c : Client) (ops : List Op) (h : nonNull c ops = true) :
    ∀ o ∈ c.lent, o ≠ nullptr := by
  have h1 : c.lent.all (fun o => decide (o ≠ nullptr)) = true := by
    cases ops with
    | nil => simpa [nonNull] using h
    | cons op ops =>
      simp only [nonNull, Bool.and_eq_true] at h
      exact h.1
  intro o ho
  have := List.all_eq_true.1 h1 o ho
  simpa using this

theorem nonNull_left (xs : List Op) : ∀ (c : Client) (ys : List Op),
    nonNull c (xs ++ ys) = true → nonNull c xs = true := by
  induction xs with
  | nil =>
    intro c ys h
    have := nonNull_head c _ h
    simp only [nonNull, List.all_eq_true, decide_eq_true_eq]
    exact this
  | cons op xs ih =>
    intro c ys h
    simp only [List.cons_append, nonNull, Bool.and_eq_true] at h ⊢
    exact ⟨h.1, ih _ _ h.2⟩

/-- When no handle holds null, every release of the sequence is of a non-null
pointer. -/
theorem released_ne_null (ops : List Op) : ∀ (c : Client),
    valid c ops = true → nonNull c ops = true →
    ∀ o, Op.release o ∈ ops → o ≠ nullptr := by
  induction ops with
  | nil => intro c _ _ o ho; exact absurd ho (List.not_mem_nil _)
  | cons op ops ih =>
    intro c hv hn o ho
    have hv' := (valid_cons c op ops).1 hv
    have hhead := nonNull_head c _ hn
    simp only [nonNull, Bool.and_eq_true] at hn
    rcases List.mem_cons.1 ho with h | h
    · exact hhead o (hv'.1 o h.symm)
    · exact ih (c.step op) hv'.2 hn.2 o h

/-- No member function revives a destructed pool. -/
theorem step_destructed (c : Client) (op : Op) (h : (c.step op).pool.destructed = false) :
    c.pool.destructed = false := by
  cases hd : c.pool.destructed
  · rfl
  · exfalso
    cases op with
    | acquire =>
      have := (ObjectPool.object_fields c.pool).2.2.2.1
      simp only [step] at h
      rw [this, hd] at h
      exact Bool.noConfusion h
    | release o =>
      by_cases ho : o = nullptr
      · subst ho
        rw [step_release_null] at h
        rw [hd] at h
        exact Bool.noConfusion h
      · have := (ObjectPool.freeObject_fields c.pool o).2.2.1 hd
        rw [step_release_of_ne c o ho] at h
        simp only [] at h
        rw [this] at h
        exact Bool.noConfusion h
    | destroy => simp [step, ObjectPool.destroy, hd] at h

/-- While the pool is not destructed, a step keeps the counter equal to the
number of outstanding handles, provided a release is of a lent, non-null
pointer. -/
theorem step_count (c : Client) (op : Op) (hc : c.pool.m_objsCount = c.lent.length)
    (hv : ∀ o, op = Op.release o → o ∈ c.lent)
    (hnn : ∀ o, op = Op.release o → o ≠ nullptr)
    (hlive : (c.step op).pool.destructed = false) :
    (c.step op).pool.m_objsCount = (c.step op).lent.length ∧
    (c.step op).pool.m_objsCount =
      c.pool.m_objsCount + acquires [op] - releases [op] := by
  cases op with
  | acquire =>
    have h1 := (ObjectPool.object_fields c.pool).1
    simp only [step, h1, hc, List.length_append, List.length_singleton, acquires, releases]
    simp
  | release o =>
    have hmem := hv o rfl
    have ho := hnn o rfl
    rw [step_release_of_ne c o ho] at hlive ⊢
    have h1 := (ObjectPool.freeObject_fields c.pool o).2.2.2 hlive
    have hpos : 0 < c.lent.length := List.length_pos_of_mem hmem
    simp only [h1, hc, List.length_erase_of_mem hmem, acquires, releases]
    simp
    omega
  | destroy =>
    simp [step, ObjectPool.destroy, hc, acquires, releases]

/-- The counter along a sequence of operations that leaves the pool alive and
releases no null handle. -/
theorem run_count (ops : List Op) : ∀ (c : Client),
    c.pool.m_objsCount = c.lent.length → valid c ops = true →
    (∀ o, Op.release o ∈ ops → o ≠ nullptr) →
    (c.run ops).pool.destructed = false →
    (c.run ops).pool.m_objsCount = (c.run ops).lent.length ∧
    (c.run ops).pool.m_objsCount = c.pool.m_objsCount + acquires ops - releases ops := by
  induction ops using List.reverseRecOn with
  | nil =>
    intro c hc _ _ _
    simp [run_nil, hc, acquires, releases]
  | append_singleton ops op ih =>
    intro c hc hv hnn hlive
    rw [run_append] at hlive ⊢
    rw [valid_append] at hv
    have hstep : ((c.run ops).step op).pool.destructed = false := hlive
    have hprev := ih c hc hv.1 (fun o ho => hnn o (List.mem_append_left _ ho))
      (step_destructed _ _ hstep)
    have hvop : ∀ o, op = Op.release o → o ∈ (c.run ops).lent :=
      ((valid_cons _ _ _).1 hv.2).1
    have hnop : ∀ o, op = Op.release o → o ≠ nullptr := by
      intro o ho
      apply hnn o
      rw [ho]
      simp
    have hs := step_count (c.run ops) op hprev.1 hvop hnop hstep
    refine ⟨hs.1, ?_⟩
    have e : (c.run ops).run [op] = (c.run ops).step op := rfl
    rw [e, hs.2, hprev.2, acquires_append, releases_append]
    push_cast
    omega

/-- A non-draining pool whose counter does not exceed the normal size recycles. -/
theorem shouldFree_false_of_le (p : ObjectPool) (hd : p.m_shouldDestroy = false)
    (hle : p.m_objsCount ≤ p.m_normalSize) : p.shouldFree = false := by
  apply Bool.eq_false_iff.2
  rw [Ne, ObjectPool.shouldFree_iff]
  rintro (h | h)
  · rw [hd] at h; exact Bool.noConfusion h
  · omega

/-- One acquire or release while the number of outstanding handles is within
the normal size of a non-draining pool, when neither the fabric, nor idle
storage, nor a handle gives a null pointer. -/
theorem step_within (c : Client) (op : Op) (hc : c.pool.m_objsCount = c.lent.length)
    (hd : c.pool.m_shouldDestroy = false)
    (hfab : ∀ k, c.pool.m_fabric k ≠ nullptr)
    (hidle : ∀ o ∈ c.pool.m_objs, o ≠ nullptr)
    (hlent : ∀ o ∈ c.lent, o ≠ nullptr)
    (hv : ∀ o, op = Op.release o → o ∈ c.lent)
    (hb : (c.lent.length : Int) ≤ c.pool.m_normalSize) (hop : op ≠ Op.destroy) :
    (c.step op).pool.m_objsCount = (c.step op).lent.length ∧
    (c.step op).pool.m_shouldDestroy = false ∧
    (c.step op).pool.m_normalSize = c.pool.m_normalSize ∧
    (c.step op).pool.discards = c.pool.discards ∧
    (c.step op).pool.recycles = c.pool.recycles + releases [op] ∧
    (c.step op).pool.m_fabric = c.pool.m_fabric ∧
    (∀ o ∈ (c.step op).pool.m_objs, o ≠ nullptr) ∧
    (∀ o ∈ (c.step op).lent, o ≠ nullptr) := by
  cases op with
  | acquire =>
    have h := ObjectPool.object_fields c.pool
    refine ⟨?_, ?_, ?_, ?_, ?_, ?_, ?_, ?_⟩
    · simp only [step, h.1, hc, List.length_append, List.length_singleton]
      simp
    · simp only [step, h.2.1, hd]
    · simp only [step, h.2.2.1]
    · simp only [step, h.2.2.2.2.1]
    · simp only [step, h.2.2.2.2.2, releases]
      simp
    · simp only [step]
      cases hm : c.pool.m_objs with
      | nil => rw [ObjectPool.object_empty c.pool hm]
      | cons front rest =>
        rw [ObjectPool.object_front c.pool front rest hm
          (hidle front (by rw [hm]; exact List.mem_cons_self _ _))]
    · simp only [step]
      cases hm : c.pool.m_objs with
      | nil =>
        rw [ObjectPool.object_empty c.pool hm]
        intro o ho
        simp only [hm] at ho
        exact absurd ho (List.not_mem_nil _)
      | cons front rest =>
        rw [ObjectPool.object_front c.pool front rest hm
          (hidle front (by rw [hm]; exact List.mem_cons_self _ _))]
        intro o ho
        exact hidle o (by rw [hm]; exact List.mem_cons_of_mem _ ho)
    · simp only [step]
      intro o ho
      rcases List.mem_append.1 ho with h1 | h1
      · exact hlent o h1
      · rw [List.mem_singleton] at h1
        rw [h1]
        cases hm : c.pool.m_objs with
        | nil =>
          rw [ObjectPool.object_empty c.pool hm]
          exact hfab _
        | cons front rest =>
          rw [ObjectPool.object_front c.pool front rest hm
            (hidle front (by rw [hm]; exact List.mem_cons_self _ _))]
          exact hidle front (by rw [hm]; exact List.mem_cons_self _ _)
  | release o =>
    have hmem := hv o rfl
    have ho := hlent o hmem
    have hpos : 0 < c.lent.length := List.length_pos_of_mem hmem
    have hs := shouldFree_false_of_le c.pool hd (by omega)
    rw [step_release_of_ne c o ho, ObjectPool.freeObject_recycle c.pool o hs]
    refine ⟨?_, hd, rfl, ?_, ?_, rfl, ?_, ?_⟩
    · simp only [hc, List.length_erase_of_mem hmem]
      omega
    · simp [ObjectPool.discards, Call.isFree]
    · simp [ObjectPool.recycles, releases, Call.isBack]
    · intro x hx
      rcases List.mem_append.1 hx with h1 | h1
      · exact hidle x h1
      · rw [List.mem_singleton] at h1
        rw [h1]; exact ho
    · intro x hx
      exact hlent x (List.mem_of_mem_erase hx)
  | destroy => exact absurd rfl hop

/-- A sequence of acquires and releases during which the number of outstanding
handles stays within the normal size of a non-draining pool, when neither
the fabric, nor idle storage, nor a handle gives a null pointer. -/
theorem run_within (ops : List Op) : ∀ (c : Client),
    c.pool.m_objsCount = c.lent.length → c.pool.m_shouldDestroy = false →
    (∀ k, c.pool.m_fabric k ≠ nullptr) → (∀ o ∈ c.pool.m_objs, o ≠ nullptr) →
    (∀ o ∈ c.lent, o ≠ nullptr) →
    valid c ops = true → bounded c.pool.m_normalSize c ops = true → noDestroy ops = true →
    (c.run ops).pool.m_objsCount = (c.run ops).lent.length ∧
    (c.run ops).pool.m_shouldDestroy = false ∧
    (c.run ops).pool.m_normalSize = c.pool.m_normalSize ∧
    (c.run ops).pool.discards = c.pool.discards ∧
    (c.run ops).pool.recycles = c.pool.recycles + releases ops ∧
    (c.run ops).pool.m_fabric = c.pool.m_fabric ∧
    (∀ o ∈ (c.run ops).pool.m_objs, o ≠ nullptr) ∧
    (∀ o ∈ (c.run ops).lent, o ≠ nullptr) := by
  induction ops with
  | nil =>
    intro c hc hd _ hidle hlent _ _ _
    exact ⟨hc, hd, rfl, rfl, by simp [releases, run_nil], rfl, hidle, hlent⟩
  | cons op ops ih =>
    intro c hc hd hfab hidle hlent hv hb hn
    have hv' := (valid_cons c op ops).1 hv
    have hhead := bounded_head _ c _ hb
    have hop : op ≠ Op.destroy := by
      simp only [noDestroy, List.all_cons, Bool.and_eq_true, decide_eq_true_eq] at hn
      exact hn.1
    have hn' : noDestroy ops = true := by
      simp only [noDestroy, List.all_cons, Bool.and_eq_true, decide_eq_true_eq] at hn
      exact hn.2
    have hs := step_within c op hc hd hfab hidle hlent hv'.1 hhead hop
    have hb' : bounded (c.step op).pool.m_normalSize (c.step op) ops = true := by
      rw [hs.2.2.1]
      simp only [bounded, Bool.and_eq_true] at hb
      exact hb.2
    have hfab' : ∀ k, (c.step op).pool.m_fabric k ≠ nullptr := by
      rw [hs.2.2.2.2.2.1]; exact hfab
    have hrec := ih (c.step op) hs.1 hs.2.1 hfab' hs.2.2.2.2.2.2.1 hs.2.2.2.2.2.2.2
      hv'.2 hb' hn'
    rw [run_cons]
    refine ⟨hrec.1, hrec.2.1, by rw [hrec.2.2.1, hs.2.2.1], by rw [hrec.2.2.2.1, hs.2.2.2.1],
      ?_, by rw [hrec.2.2.2.2.2.1, hs.2.2.2.2.2.1], hrec.2.2.2.2.2.2.1, hrec.2.2.2.2.2.2.2⟩
    rw [hrec.2.2.2.2.1, hs.2.2.2.2.1]
    have e : releases (op :: ops) = releases [op] + releases ops :=
      releases_append [op] ops
    rw [e]
    omega

/-- The caller of a freshly constructed pool, in closed form. -/
theorem fresh_eq (fabric : Nat → ObjPtr) (n : Nat) (normalSize : Int) (h : n < 2147483648) :
    fresh fabric (n : Int) normalSize =
      { pool :=
          { m_objs := (List.range n).map fabric, m_fabric := fabric, m_normalSize := normalSize,
            m_shouldDestroy := false, m_objsCount := 0, fabricCalls := n,
            trace := (List.range n).map (fun k => Call.m_fabric (fabric k)),
            destructed := false },
        lent := [] } := by
  rw [fresh, ObjectPool.ctor_eq fabric n normalSize h]

end Client

namespace ObjectPool

/-- The loop body only touches idle storage, the fabric counter and the trace. -/
theorem pushFabric_fields (p : ObjectPool) :
    p.pushFabric.m_normalSize = p.m_normalSize ∧
    p.pushFabric.m_shouldDestroy = p.m_shouldDestroy ∧
    p.pushFabric.m_objsCount = p.m_objsCount ∧
    p.pushFabric.destructed = p.destructed ∧
    p.pushFabric.m_fabric = p.m_fabric := by
  simp [pushFabric, callFabric]

/-- The constructor loop, for any start value, only touches idle storage, the
fabric counter and the trace. -/
theorem ctorLoop_fields (p : ObjectPool) (s : Int) :
    (ctorLoop p s).m_normalSize = p.m_normalSize ∧
    (ctorLoop p s).m_shouldDestroy = p.m_shouldDestroy ∧
    (ctorLoop p s).m_objsCount = p.m_objsCount ∧
    (ctorLoop p s).destructed = p.destructed ∧
    (ctorLoop p s).m_fabric = p.m_fabric := by
  induction p, s using ctorLoop.induct with
  | case1 p => rw [ctorLoop]; simp
  | case2 p s hs ih =>
    rw [ctorLoop, if_neg hs]
    have hp := pushFabric_fields p
    exact ⟨ih.1.trans hp.1, ih.2.1.trans hp.2.1, ih.2.2.1.trans hp.2.2.1,
      ih.2.2.2.1.trans hp.2.2.2.1, ih.2.2.2.2.trans hp.2.2.2.2⟩

/-- Closed form of a pool right after construction, for any start size in
the range of `int`: the loop body runs `startSize mod 2^32` times. -/
theorem ctor_eq_int (fabric : Nat → ObjPtr) (s normalSize : Int)
    (h1 : -2147483648 ≤ s) (h2 : s < 2147483648) :
    ctor fabric s normalSize =
      { m_objs := (List.range (s % 4294967296).toNat).map fabric, m_fabric := fabric,
        m_normalSize := normalSize, m_shouldDestroy := false, m_objsCount := 0,
        fabricCalls := (s % 4294967296).toNat,
        trace := (List.range (s % 4294967296).toNat).map (fun k => Call.m_fabric (fabric k)),
        destructed := false } := by
  rw [ctor, ctorLoop_iterate (s % 4294967296).toNat _ s h1 h2 rfl, iterate_pushFabric]
  simp

theorem countP_isFabric_map_fabric (l : List Nat) (fabric : Nat → ObjPtr) :
    (l.map (fun k => Call.m_fabric (fabric k))).countP Call.isFabric = l.length := by
  induction l with
  | nil => rfl
  | cons a l ih => simp [List.countP_cons, Call.isFabric, ih]

theorem countP_isFabric_map_freeFunc (l : List ObjPtr) :
    (l.map Call.m_freeFunc).countP Call.isFabric = 0 := by
  induction l with
  | nil => rfl
  | cons a l ih => simp [List.countP_cons, Call.isFabric, ih]

/-- While the loop variable is negative and above `INT_MIN`, an iteration
decrements it without wrapping, so `k` iterations from a negative start leave
the loop running on `s - k`. -/
theorem ctorLoop_negative_steps (k : Nat) : ∀ (p : ObjectPool) (s : Int),
    s < 0 → -2147483648 ≤ s - k → ctorLoop p s = ctorLoop (pushFabric^[k] p) (s - k) := by
  induction k with
  | zero => intro p s _ _; simp
  | succ k ih =>
    intro p s hneg hlow
    have hs : s ≠ 0 := by omega
    have hw : wrapInt32 (s - 1) = s - 1 := by simp only [wrapInt32]; omega
    rw [ctorLoop, if_neg hs, hw, ih p.pushFabric (s - 1) (by omega) (by omega),
      Function.iterate_succ_apply]
    congr 1
    push_cast
    omega

/-- One acquire-release cycle on a non-draining pool with no handle
outstanding whose idle storage has a non-null front: the front is lent,
recycled and put at the back. -/
theorem cycle_eq (p : ObjectPool) (front : ObjPtr) (rest : List ObjPtr)
    (hm : p.m_objs = front :: rest) (hf : front ≠ nullptr)
    (hd : p.m_shouldDestroy = false) (hc : p.m_objsCount = 0) :
    p.cycle =
      { p with m_objs := rest ++ [front], trace := p.trace ++ [Call.m_backFunc front] } := by
  have hs : ({ p with m_objs := rest, m_objsCount := p.m_objsCount + 1 } : ObjectPool).shouldFree
      = false := by
    apply Bool.eq_false_iff.2
    rw [Ne, shouldFree_iff]
    rintro (h | h)
    · rw [hd] at h; exact Bool.noConfusion h
    · simp only [hc] at h; omega
  rw [cycle, object_front p front rest hm hf]
  simp only []
  rw [dropHandle_of_ne _ front hf, freeObject_recycle _ front hs]
  simp [hc]

/-- Acquire-release cycles on a non-draining pool with no handle outstanding
and a non-empty idle storage without null entries: each cycle recycles the
front of idle storage and rotates it to the back. -/
theorem cycles_eq (m : Nat) : ∀ (p : ObjectPool),
    p.m_objs ≠ [] → (∀ o ∈ p.m_objs, o ≠ nullptr) →
    p.m_shouldDestroy = false → p.m_objsCount = 0 →
    (cycles m p).m_objs = p.m_objs.rotate m ∧
    (cycles m p).recycles = p.recycles + m ∧
    (cycles m p).creates = p.creates ∧
    (cycles m p).discards = p.discards ∧
    (cycles m p).fabricCalls = p.fabricCalls ∧
    (cycles m p).m_objsCount = 0 ∧
    (cycles m p).m_shouldDestroy = false ∧
    (cycles m p).destructed = p.destructed := by
  induction m with
  | zero => intro p _ _ hd hc; simp [cycles, hd, hc]
  | succ m ih =>
    intro p hne hnn hd hc
    obtain ⟨front, rest, hm⟩ : ∃ front rest, p.m_objs = front :: rest := by
      cases h : p.m_objs with
      | nil => exact absurd h hne
      | cons a l => exact ⟨a, l, rfl⟩
    have hf : front ≠ nullptr := hnn front (by rw [hm]; exact List.mem_cons_self _ _)
    have e := cycle_eq p front rest hm hf hd hc
    have hnn2 : ∀ o ∈ rest ++ [front], o ≠ nullptr := by
      intro o ho
      apply hnn o
      rw [hm]
      simp only [List.mem_append, List.mem_singleton] at ho
      rcases ho with ho | ho
      · exact List.mem_cons_of_mem _ ho
      · rw [ho]; exact List.mem_cons_self _ _
    have h := ih { p with m_objs := rest ++ [front],
                          trace := p.trace ++ [Call.m_backFunc front] }
      (by simp) hnn2 hd hc
    simp only [cycles, e]
    refine ⟨?_, ?_, ?_, ?_, h.2.2.2.2.1, h.2.2.2.2.2.1, h.2.2.2.2.2.2.1, h.2.2.2.2.2.2.2⟩
    · rw [h.1, hm, List.rotate_cons_succ]
    · rw [h.2.1]
      simp only [recycles, List.countP_append, List.countP_cons, List.countP_nil, Call.isBack]
      simp
      omega
    · rw [h.2.2.1]
      simp [creates, Call.isFabric]
    · rw [h.2.2.2.1]
      simp [discards, Call.isFree]

/-- Closed form of the destructor. -/
theorem destructor_eq (p : ObjectPool) :
    p.destructor =
      { p with m_objs := [], trace := p.trace ++ p.m_objs.map Call.m_freeFunc,
               destructed := true } := by
  simp [destructor, dtorLoop_eq]

end ObjectPool

namespace Client

/-- The draining flag after one operation. -/
theorem step_shouldDestroy (c : Client) (op : Op) :
    (c.step op).pool.m_shouldDestroy =
      (c.pool.m_shouldDestroy || decide (op = Op.destroy)) := by
  cases op with
  | acquire => simp [step, (ObjectPool.object_fields c.pool).2.1]
  | release o =>
    by_cases ho : o = nullptr
    · subst ho
      simp [step_release_null]
    · simp [step_release_of_ne c o ho, (ObjectPool.freeObject_fields c.pool o).1]
  | destroy => simp [step, ObjectPool.destroy]

/-- The draining flag after a sequence of operations. -/
theorem run_shouldDestroy (ops : List Op) : ∀ (c : Client),
    (c.run ops).pool.m_shouldDestroy = (c.pool.m_shouldDestroy || !noDestroy ops) := by
  induction ops with
  | nil => intro c; simp [run_nil, noDestroy]
  | cons op ops ih =>
    intro c
    rw [run_cons, ih, step_shouldDestroy]
    cases hop : decide (op = Op.destroy) <;> cases c.pool.m_shouldDestroy <;>
      simp [noDestroy, hop]

end Client

namespace ObjectPool

/-- The teardown branch is taken exactly when the pool is draining and the
counter is 1 before the release. -/
theorem freeObjectTearsDown_iff (p : ObjectPool) (o : ObjPtr) :
    p.freeObjectTearsDown o = true ↔ (p.m_shouldDestroy = true ∧ p.m_objsCount = 1) := by
  have h : ∀ x : Int, x - 1 = 0 ↔ x = 1 := fun x => by omega
  cases hs : p.shouldFree <;>
    simp [freeObjectTearsDown, freeObjectDecrement, freeObjectDispose, hs, callFreeFunc,
      callBackFunc, h]

/-- The counter after a release that does not tear the pool down. -/
theorem freeObject_count (p : ObjectPool) (o : ObjPtr)
    (h : ¬ (p.m_shouldDestroy = true ∧ p.m_objsCount = 1)) :
    (p.freeObject o).m_objsCount = p.m_objsCount - 1 := by
  cases hs : p.shouldFree
  · rw [freeObject_recycle p o hs]
  · rw [freeObject_discard p o hs h]

end ObjectPool

namespace Client

/-- Once the counter is above the number of outstanding handles, as the
teardown branch leaves it, no release of an outstanding handle takes that
branch. -/
theorem teardowns_after (ops : List Op) : ∀ (c : Client),
    (c.lent.length : Int) + 1 ≤ c.pool.m_objsCount → valid c ops = true →
    teardowns c ops = 0 := by
  induction ops with
  | nil => intro c _ _; rfl
  | cons op ops ih =>
    intro c hc hv
    have hv' := (valid_cons c op ops).1 hv
    cases op with
    | acquire =>
      simp only [teardowns]
      apply ih _ _ hv'.2
      simp only [step, (ObjectPool.object_fields c.pool).1, List.length_append,
        List.length_singleton]
      push_cast
      omega
    | release o =>
      have hmem := hv'.1 o rfl
      have hpos : 0 < c.lent.length := List.length_pos_of_mem hmem
      have hnt : ¬ (c.pool.m_shouldDestroy = true ∧ c.pool.m_objsCount = 1) := by
        rintro ⟨_, h1⟩
        omega
      have hno : c.pool.freeObjectTearsDown o = false := by
        apply Bool.eq_false_iff.2
        rw [Ne, ObjectPool.freeObjectTearsDown_iff]
        exact hnt
      simp only [teardowns, hno, Bool.and_false, Bool.false_eq_true, if_false, Nat.zero_add]
      apply ih _ _ hv'.2
      by_cases ho : o = nullptr
      · subst ho
        rw [step_release_null]
        simp only [List.length_erase_of_mem hmem]
        omega
      · rw [step_release_of_ne c o ho]
        simp only [ObjectPool.freeObject_count c.pool o hnt, List.length_erase_of_mem hmem]
        omega
    | destroy =>
      simp only [teardowns]
      exact ih _ hc hv'.2

/-- From a state whose counter is at least the number of outstanding handles,
the teardown branch is taken at most once along releases of outstanding
handles. -/
theorem teardowns_le_one (ops : List Op) : ∀ (c : Client),
    (c.lent.length : Int) ≤ c.pool.m_objsCount → valid c ops = true →
    teardowns c ops ≤ 1 := by
  induction ops with
  | nil => intro c _ _; simp [teardowns]
  | cons op ops ih =>
    intro c hc hv
    have hv' := (valid_cons c op ops).1 hv
    cases op with
    | acquire =>
      simp only [teardowns]
      apply ih _ _ hv'.2
      simp only [step, (ObjectPool.object_fields c.pool).1, List.length_append,
        List.length_singleton]
      push_cast
      omega
    | release o =>
      have hmem := hv'.1 o rfl
      have hpos : 0 < c.lent.length := List.length_pos_of_mem hmem
      by_cases ho : o = nullptr
      · subst ho
        have hstep : teardowns (c.step (Op.release nullptr)) ops ≤ 1 := by
          apply ih _ _ hv'.2
          rw [step_release_null]
          simp only [List.length_erase_of_mem hmem]
          omega
        simpa [teardowns] using hstep
      · by_cases ht : c.pool.m_shouldDestroy = true ∧ c.pool.m_objsCount = 1
        · have hafter : ((c.step (Op.release o)).lent.length : Int) + 1 ≤
              (c.step (Op.release o)).pool.m_objsCount := by
            rw [step_release_of_ne c o ho]
            simp only [ObjectPool.freeObject_teardown c.pool o ht.1 ht.2,
              List.length_erase_of_mem hmem]
            omega
          have h0 := teardowns_after ops _ hafter hv'.2
          simp only [teardowns, h0]
          split <;> omega
        · have hno : c.pool.freeObjectTearsDown o = false := by
            apply Bool.eq_false_iff.2
            rw [Ne, ObjectPool.freeObjectTearsDown_iff]
            exact ht
          simp only [teardowns, hno, Bool.and_false, Bool.false_eq_true, if_false,
            Nat.zero_add]
          apply ih _ _ hv'.2
          rw [step_release_of_ne c o ho]
          simp only [ObjectPool.freeObject_count c.pool o ht, List.length_erase_of_mem hmem]
          omega
    | destroy =>
      simp only [teardowns]
      exact ih _ hc hv'.2

/-- One operation keeps the bound on idle storage plus counter, for a pool
with positive normal size `N ≤ M`. -/
theorem step_idle_bound (M N : Int) (hN : 0 < N) (hNM : N ≤ M) (c : Client) (op : Op)
    (hn : c.pool.m_normalSize = N)
    (hl : (c.lent.length : Int) ≤ c.pool.m_objsCount)
    (hb : c.pool.m_objs ≠ [] → (c.pool.m_objs.length : Int) + c.pool.m_objsCount ≤ M)
    (hv : ∀ o, op = Op.release o → o ∈ c.lent) :
    (c.step op).pool.m_normalSize = N ∧
    ((c.step op).lent.length : Int) ≤ (c.step op).pool.m_objsCount ∧
    ((c.step op).pool.m_objs ≠ [] →
      ((c.step op).pool.m_objs.length : Int) + (c.step op).pool.m_objsCount ≤ M) := by
  cases op with
  | acquire =>
    have hf := ObjectPool.object_fields c.pool
    refine ⟨by simp only [step]; rw [hf.2.2.1, hn], ?_, ?_⟩
    · simp only [step, hf.1, List.length_append, List.length_singleton]
      push_cast
      omega
    · simp only [step]
      cases hm : c.pool.m_objs with
      | nil =>
        rw [ObjectPool.object_empty c.pool hm]
        intro h
        exact absurd hm h
      | cons front rest =>
        have hb' := hb (by rw [hm]; simp)
        rw [hm] at hb'
        simp only [List.length_cons] at hb'
        by_cases hnull : front = nullptr
        · subst hnull
          rw [ObjectPool.object_null_front c.pool rest hm]
          intro _
          simp only []
          push_cast at hb'
          omega
        · rw [ObjectPool.object_front c.pool front rest hm hnull]
          intro _
          simp only []
          push_cast at hb'
          omega
  | release o =>
    have hmem := hv o rfl
    have hpos : 0 < c.lent.length := List.length_pos_of_mem hmem
    by_cases ho : o = nullptr
    · subst ho
      rw [step_release_null]
      refine ⟨hn, ?_, hb⟩
      simp only [List.length_erase_of_mem hmem]
      omega
    · have hff := ObjectPool.freeObject_fields c.pool o
      rw [step_release_of_ne c o ho]
      refine ⟨by simp only []; rw [hff.2.1, hn], ?_, ?_⟩
      · simp only [List.length_erase_of_mem hmem]
        by_cases ht : c.pool.m_shouldDestroy = true ∧ c.pool.m_objsCount = 1
        · rw [ObjectPool.freeObject_teardown c.pool o ht.1 ht.2]
          simp only []
          omega
        · rw [ObjectPool.freeObject_count c.pool o ht]
          omega
      · simp only []
        cases hs : c.pool.shouldFree
        · rw [ObjectPool.freeObject_recycle c.pool o hs]
          intro _
          simp only [List.length_append, List.length_singleton]
          have hle : c.pool.m_objsCount ≤ N := by
            by_contra hgt
            have : c.pool.shouldFree = true := by
              rw [ObjectPool.shouldFree_iff]
              right
              rw [hn]
              omega
            rw [hs] at this
            exact Bool.noConfusion this
          by_cases hm : c.pool.m_objs = []
          · rw [hm]
            simp only [List.length_nil]
            push_cast
            omega
          · have := hb hm
            push_cast
            omega
        · by_cases ht : c.pool.m_shouldDestroy = true ∧ c.pool.m_objsCount = 1
          · rw [ObjectPool.freeObject_teardown c.pool o ht.1 ht.2]
            intro h
            exact absurd rfl h
          · rw [ObjectPool.freeObject_discard c.pool o hs ht]
            intro h
            have := hb h
            simp only []
            omega
  | destroy =>
    exact ⟨hn, hl, hb⟩

/-- The bound on idle storage plus counter along a sequence of operations. -/
theorem run_idle_bound (M N : Int) (hN : 0 < N) (hNM : N ≤ M) (ops : List Op) :
    ∀ (c : Client), c.pool.m_normalSize = N →
    (c.lent.length : Int) ≤ c.pool.m_objsCount →
    (c.pool.m_objs ≠ [] → (c.pool.m_objs.length : Int) + c.pool.m_objsCount ≤ M) →
    valid c ops = true →
    (c.run ops).pool.m_normalSize = N ∧
    ((c.run ops).lent.length : Int) ≤ (c.run ops).pool.m_objsCount ∧
    ((c.run ops).pool.m_objs ≠ [] →
      ((c.run ops).pool.m_objs.length : Int) + (c.run ops).pool.m_objsCount ≤ M) := by
  induction ops with
  | nil => intro c hn hl hb _; exact ⟨hn, hl, hb⟩
  | cons op ops ih =>
    intro c hn hl hb hv
    have hv' := (valid_cons c op ops).1 hv
    have hs := step_idle_bound M N hN hNM c op hn hl hb hv'.1
    rw [run_cons]
    exact ih (c.step op) hs.1 hs.2.1 hs.2.2 hv'.2

end Client

namespace ObjectPool

theorem created_discarded_of_fabric (p q : ObjectPool) (r : ObjPtr)
    (h : q.trace = p.trace ++ [Call.m_fabric r]) :
    q.created = p.created ++ [r] ∧ q.discarded = p.discarded := by
  simp [created, discarded, h, List.filterMap_append]

theorem created_discarded_of_back (p q : ObjectPool) (o : ObjPtr)
    (h : q.trace = p.trace ++ [Call.m_backFunc o]) :
    q.created = p.created ∧ q.discarded = p.discarded := by
  simp [created, discarded, h, List.filterMap_append]

theorem created_discarded_of_free (p q : ObjectPool) (l : List ObjPtr)
    (h : q.trace = p.trace ++ l.map Call.m_freeFunc) :
    q.created = p.created ∧ q.discarded = p.discarded ++ l := by
  have h1 : ∀ l : List ObjPtr, (l.map Call.m_freeFunc).filterMap
      (fun call => match call with | .m_fabric r => some r | _ => none) = [] := by
    intro l
    induction l with
    | nil => rfl
    | cons a l ih => simp [List.filterMap_cons, ih]
  have h2 : ∀ l : List ObjPtr, (l.map Call.m_freeFunc).filterMap
      (fun call => match call with | .m_freeFunc o => some o | _ => none) = l := by
    intro l
    induction l with
    | nil => rfl
    | cons a l ih => simp [List.filterMap_cons, ih]
  simp only [created, discarded, h, List.filterMap_append, h1, h2, List.append_nil, and_self]

theorem created_discarded_of_same (p q : ObjectPool) (h : q.trace = p.trace) :
    q.created = p.created ∧ q.discarded = p.discarded := by
  simp [created, discarded, h]

theorem creates_eq_length_created (p : ObjectPool) : p.creates = p.created.length := by
  simp only [creates, created]
  induction p.trace with
  | nil => rfl
  | cons a l ih => cases a <;> simp [List.countP_cons, List.filterMap_cons, Call.isFabric, ih]

theorem discards_eq_length_discarded (p : ObjectPool) : p.discards = p.discarded.length := by
  simp only [discards, discarded]
  induction p.trace with
  | nil => rfl
  | cons a l ih => cases a <;> simp [List.countP_cons, List.filterMap_cons, Call.isFree, ih]

end ObjectPool

namespace Client

/-- One operation keeps the accounting of created objects: with a fabric that
never returns null, every created pointer is, counted with multiplicity, in
idle storage, with an outstanding handle, or discarded. -/
theorem step_partition (fabric : Nat → ObjPtr) (hnn : ∀ k, fabric k ≠ nullptr)
    (c : Client) (op : Op)
    (hfab : c.pool.m_fabric = fabric)
    (hcr : c.pool.created = (List.range c.pool.fabricCalls).map fabric)
    (hcount : ∀ a, c.pool.created.count a =
      c.pool.m_objs.count a + c.lent.count a + c.pool.discarded.count a)
    (hv : ∀ o, op = Op.release o → o ∈ c.lent) :
    (c.step op).pool.m_fabric = fabric ∧
    (c.step op).pool.created = (List.range (c.step op).pool.fabricCalls).map fabric ∧
    (∀ a, (c.step op).pool.created.count a =
      (c.step op).pool.m_objs.count a + (c.step op).lent.count a +
        (c.step op).pool.discarded.count a) := by
  cases op with
  | acquire =>
    cases hm : c.pool.m_objs with
    | nil =>
      have e := ObjectPool.object_empty c.pool hm
      have ht := ObjectPool.created_discarded_of_fabric c.pool c.pool.object.1
        (c.pool.m_fabric c.pool.fabricCalls) (by rw [e])
      simp only [step]
      refine ⟨by rw [e]; exact hfab, ?_, ?_⟩
      · rw [ht.1, hcr, e]
        simp [List.range_succ, hfab]
      · intro a
        have := hcount a
        rw [hm] at this
        rw [ht.1, ht.2]
        rw [e]
        simp only [hm, List.count_append, List.count_nil, List.count_singleton] at this ⊢
        omega
    | cons front rest =>
      have hfront : front ≠ nullptr := by
        have h1 := hcount front
        rw [hm] at h1
        simp only [List.count_cons, beq_self_eq_true, if_true] at h1
        have h2 : front ∈ c.pool.created := List.count_pos_iff.1 (by omega)
        rw [hcr] at h2
        simp only [List.mem_map] at h2
        obtain ⟨k, _, rfl⟩ := h2
        exact hnn k
      have e := ObjectPool.object_front c.pool front rest hm hfront
      have ht := ObjectPool.created_discarded_of_same c.pool c.pool.object.1 (by rw [e])
      simp only [step]
      refine ⟨by rw [e]; exact hfab, ?_, ?_⟩
      · rw [ht.1, hcr, e]
      · intro a
        have := hcount a
        rw [hm] at this
        rw [ht.1, ht.2]
        rw [e]
        simp only [List.count_append, List.count_cons, List.count_nil,
          List.count_singleton] at this ⊢
        omega
  | release o =>
    have hmem := hv o rfl
    have hpos : 0 < c.lent.count o := List.count_pos_iff.2 hmem
    have ho : o ≠ nullptr := by
      have h1 := hcount o
      have h2 : o ∈ c.pool.created := List.count_pos_iff.1 (by omega)
      rw [hcr] at h2
      simp only [List.mem_map] at h2
      obtain ⟨k, _, rfl⟩ := h2
      exact hnn k
    rw [step_release_of_ne c o ho]
    simp only []
    cases hs : c.pool.shouldFree
    · have e := ObjectPool.freeObject_recycle c.pool o hs
      have ht := ObjectPool.created_discarded_of_back c.pool (c.pool.freeObject o) o
        (by rw [e])
      refine ⟨by rw [e]; exact hfab, ?_, ?_⟩
      · rw [ht.1, hcr, e]
      · intro a
        have := hcount a
        rw [ht.1, ht.2, e]
        simp only [List.count_append, List.count_singleton, List.count_erase]
        by_cases hoa : o = a
        · subst hoa
          simp only [beq_self_eq_true, if_true]
          omega
        · have : (o == a) = false := by simpa using hoa
          simp only [this, Bool.false_eq_true, if_false]
          omega
    · by_cases htd : c.pool.m_shouldDestroy = true ∧ c.pool.m_objsCount = 1
      · have e := ObjectPool.freeObject_teardown c.pool o htd.1 htd.2
        have ht := ObjectPool.created_discarded_of_free c.pool (c.pool.freeObject o)
          (o :: c.pool.m_objs) (by rw [e]; simp)
        refine ⟨by rw [e]; exact hfab, ?_, ?_⟩
        · rw [ht.1, hcr, e]
        · intro a
          have := hcount a
          rw [ht.1, ht.2, e]
          simp only [List.count_append, List.count_cons, List.count_nil, List.count_erase]
          by_cases hoa : o = a
          · subst hoa
            simp only [beq_self_eq_true, if_true]
            omega
          · have : (o == a) = false := by simpa using hoa
            simp only [this, Bool.false_eq_true, if_false]
            omega
      · have e := ObjectPool.freeObject_discard c.pool o hs htd
        have ht := ObjectPool.created_discarded_of_free c.pool (c.pool.freeObject o) [o]
          (by rw [e]; simp)
        refine ⟨by rw [e]; exact hfab, ?_, ?_⟩
        · rw [ht.1, hcr, e]
        · intro a
          have := hcount a
          rw [ht.1, ht.2, e]
          simp only [List.count_append, List.count_singleton, List.count_erase]
          by_cases hoa : o = a
          · subst hoa
            simp only [beq_self_eq_true, if_true]
            omega
          · have : (o == a) = false := by simpa using hoa
            simp only [this, Bool.false_eq_true, if_false]
            omega
  | destroy =>
    exact ⟨hfab, hcr, hcount⟩

/-- The accounting of created objects along a sequence of operations. -/
theorem run_partition (fabric : Nat → ObjPtr) (hnn : ∀ k, fabric k ≠ nullptr)
    (ops : List Op) : ∀ (c : Client),
    c.pool.m_fabric = fabric →
    c.pool.created = (List.range c.pool.fabricCalls).map fabric →
    (∀ a, c.pool.created.count a =
      c.pool.m_objs.count a + c.lent.count a + c.pool.discarded.count a) →
    valid c ops = true →
    (c.run ops).pool.created = (List.range (c.run ops).pool.fabricCalls).map fabric ∧
    (∀ a, (c.run ops).pool.created.count a =
      (c.run ops).pool.m_objs.count a + (c.run ops).lent.count a +
        (c.run ops).pool.discarded.count a) ∧
    (∀ o, Op.release o ∈ ops → o ≠ nullptr) := by
  induction ops with
  | nil =>
    intro c _ hcr hcount _
    exact ⟨hcr, hcount, fun o ho => absurd ho (List.not_mem_nil _)⟩
  | cons op ops ih =>
    intro c hfab hcr hcount hv
    have hv' := (valid_cons c op ops).1 hv
    have hs := step_partition fabric hnn c op hfab hcr hcount hv'.1
    have hrec := ih (c.step op) hs.1 hs.2.1 hs.2.2 hv'.2
    rw [run_cons]
    refine ⟨hrec.1, hrec.2.1, ?_⟩
    intro o ho
    rcases List.mem_cons.1 ho with h | h
    · have hmem := hv'.1 o h.symm
      have h1 := hcount o
      have hpos : 0 < c.lent.count o := List.count_pos_iff.2 hmem
      have h2 : o ∈ c.pool.created := List.count_pos_iff.1 (by omega)
      rw [hcr] at h2
      simp only [List.mem_map] at h2
      obtain ⟨k, _, rfl⟩ := h2
      exact hnn k
    · exact hrec.2.2 o h

/-- The accounting of created objects holds right after construction. -/
theorem fresh_partition (fabric : Nat → ObjPtr) (s normalSize : Int)
    (h1 : -2147483648 ≤ s) (h2 : s < 2147483648) :
    (fresh fabric s normalSize).pool.m_fabric = fabric ∧
    (fresh fabric s normalSize).pool.created =
      (List.range (fresh fabric s normalSize).pool.fabricCalls).map fabric ∧
    (∀ a, (fresh fabric s normalSize).pool.created.count a =
      (fresh fabric s normalSize).pool.m_objs.count a +
        (fresh fabric s normalSize).lent.count a +
        (fresh fabric s normalSize).pool.discarded.count a) ∧
    (fresh fabric s normalSize).pool.m_objsCount = (fresh fabric s normalSize).lent.length := by
  have hcre : ∀ l : List Nat, (l.map (fun k => Call.m_fabric (fabric k))).filterMap
      (fun call => match call with | .m_fabric r => some r | _ => none) = l.map fabric := by
    intro l
    induction l with
    | nil => rfl
    | cons a l ih => simp [List.filterMap_cons, ih]
  have hdis : ∀ l : List Nat, (l.map (fun k => Call.m_fabric (fabric k))).filterMap
      (fun call => match call with | .m_freeFunc o => some o | _ => none) = [] := by
    intro l
    induction l with
    | nil => rfl
    | cons a l ih => simp [List.filterMap_cons, ih]
  rw [fresh, ObjectPool.ctor_eq_int fabric s normalSize h1 h2]
  simp only [ObjectPool.created, ObjectPool.discarded, hcre, hdis]
  simp

end Client

/-! ## The claims -/

namespace ObjectPool

/-- C1: `freeObject` decides the disposal on the state before the decrement.
When `m_shouldDestroy` holds or (`m_normalSize > 0` and
`m_objsCount > m_normalSize`), `m_freeFunc(object)` is the call made for the
object and the object is not put in idle storage (idle storage is unchanged,
or emptied by the destructor when this release tears the pool down, in which
case the destructor's `m_freeFunc` calls on the idle objects follow);
otherwise `m_backFunc(object)` is the one call made and the object is appended
at the back of idle storage.  In both cases the statement after the disposal
takes exactly one off the counter, and that is the counter the call leaves
unless the release tears the pool down. -/
theorem freeObject_disposal_before_decrement (p : ObjectPool) (object : ObjPtr) :
    ((p.m_shouldDestroy = true ∨ (p.m_normalSize > 0 ∧ p.m_objsCount > p.m_normalSize)) ↔
        Call.m_freeFunc object ∈ (p.freeObject object).trace.drop p.trace.length) ∧
    ((p.m_shouldDestroy = true ∨ (p.m_normalSize > 0 ∧ p.m_objsCount > p.m_normalSize)) →
        (p.freeObjectDispose object).trace = p.trace ++ [Call.m_freeFunc object] ∧
        (p.freeObjectDispose object).m_objs = p.m_objs ∧
        (p.freeObject object).recycles = p.recycles ∧
        (p.freeObject object).m_objs =
          (if p.m_shouldDestroy = true ∧ p.m_objsCount = 1 then [] else p.m_objs) ∧
        (p.freeObject object).trace = p.trace ++ Call.m_freeFunc object ::
          (if p.m_shouldDestroy = true ∧ p.m_objsCount = 1
            then p.m_objs.map Call.m_freeFunc else [])) ∧
    (¬ (p.m_shouldDestroy = true ∨ (p.m_normalSize > 0 ∧ p.m_objsCount > p.m_normalSize)) →
        (p.freeObject object).trace = p.trace ++ [Call.m_backFunc object] ∧
        (p.freeObject object).m_objs = p.m_objs ++ [object] ∧
        (p.freeObject object).destructed = p.destructed) ∧
    (freeObjectDecrement (p.freeObjectDispose object)).m_objsCount = p.m_objsCount - 1 ∧
    (¬ (p.m_shouldDestroy = true ∧ p.m_objsCount = 1) →
        (p.freeObject object).m_objsCount = p.m_objsCount - 1 ∧
        (p.freeObject object).destructed = p.destructed) := by
  by_cases hD : p.shouldFree = true
  · have hD' := (shouldFree_iff p).1 hD
    by_cases ht : p.m_shouldDestroy = true ∧ p.m_objsCount = 1
    · have e := freeObject_teardown p object ht.1 ht.2
      refine ⟨?_, ?_, ?_, ?_, ?_⟩
      · simp [e, hD']
      · intro _
        simp [e, ht, freeObjectDispose, hD, callFreeFunc, recycles, Call.isBack,
          List.countP_cons, List.countP_map]
      · intro hn; exact absurd hD' hn
      · simp [freeObjectDecrement, freeObjectDispose, hD, callFreeFunc]
      · intro hn; exact absurd ht hn
    · have e := freeObject_discard p object hD ht
      refine ⟨?_, ?_, ?_, ?_, ?_⟩
      · simp [e, hD']
      · intro _
        simp [e, ht, freeObjectDispose, hD, callFreeFunc, recycles, Call.isBack]
      · intro hn; exact absurd hD' hn
      · simp [freeObjectDecrement, freeObjectDispose, hD, callFreeFunc]
      · intro _; simp [e]
  · have hDf : p.shouldFree = false := by simpa using hD
    have hD' : ¬ (p.m_shouldDestroy = true ∨
        (p.m_normalSize > 0 ∧ p.m_objsCount > p.m_normalSize)) :=
      fun h => hD ((shouldFree_iff p).2 h)
    have e := freeObject_recycle p object hDf
    refine ⟨?_, ?_, ?_, ?_, ?_⟩
    · simp [e, hD']
    · intro hn; exact absurd hn hD'
    · intro _; simp [e]
    · simp [freeObjectDecrement, freeObjectDispose, hDf, callBackFunc]
    · intro _; simp [e]

/-- C1 (witness): the three outcomes on the example pool with 12 idle and
two handles outstanding.  Not draining and within the normal size 5, the
release of 10 recycles it; after `destroy()` the same release discards 10
and leaves idle storage alone; with normal size 1 instead, the counter 2 is
above it and the release discards although the pool is not draining. -/
theorem freeObject_disposal_before_decrement_witness :
    (exampleTwoLent.freeObject 10).trace = [Call.m_backFunc 10] ∧
    (exampleTwoLent.freeObject 10).m_objs = [12, 10] ∧
    (exampleTwoLent.freeObject 10).m_objsCount = 1 ∧
    (exampleTwoLent.destroy.freeObject 10).trace = [Call.m_freeFunc 10] ∧
    (exampleTwoLent.destroy.freeObject 10).m_objs = [12] ∧
    (exampleTwoLent.destroy.freeObject 10).m_objsCount = 1 ∧
    ({ exampleTwoLent with m_normalSize := 1 }.freeObject 10).trace = [Call.m_freeFunc 10] :=
  ⟨((freeObject_disposal_before_decrement exampleTwoLent 10).2.2.1 (by decide)).1,
   ((freeObject_disposal_before_decrement exampleTwoLent 10).2.2.1 (by decide)).2.1,
   ((freeObject_disposal_before_decrement exampleTwoLent 10).2.2.2.2 (by decide)).1,
   ((freeObject_disposal_before_decrement exampleTwoLent.destroy 10).2.1
      (Or.inl rfl)).2.2.2.2,
   ((freeObject_disposal_before_decrement exampleTwoLent.destroy 10).2.1
      (Or.inl rfl)).2.2.2.1,
   ((freeObject_disposal_before_decrement exampleTwoLent.destroy 10).2.2.2.2 (by decide)).1,
   ((freeObject_disposal_before_decrement { exampleTwoLent with m_normalSize := 1 } 10).2.1
      (Or.inr (by decide))).2.2.2.2⟩

/-- C2 (as stated, refuted): with `startSize = 1`, `normalSize = 1` and a fabric
returning 10, 11, ..., two acquires lend 10 and 11, the second calling
`m_fabric`; the first release then calls `m_freeFunc` (discard) and leaves
idle storage empty, and the second release calls `m_backFunc` (recycle) and
stores its object: the opposite of the scenario. -/
theorem boundary_scenario_as_stated_fails :
    ((Client.fresh (fun k => k + 10) 1 1).run [.acquire, .acquire]).lent = [10, 11] ∧
    ((Client.fresh (fun k => k + 10) 1 1).run [.acquire, .acquire]).pool.trace =
      [Call.m_fabric 10, Call.m_fabric 11] ∧
    ((Client.fresh (fun k => k + 10) 1 1).run [.acquire, .acquire, .release 10]).pool.trace =
      [Call.m_fabric 10, Call.m_fabric 11, Call.m_freeFunc 10] ∧
    ((Client.fresh (fun k => k + 10) 1 1).run [.acquire, .acquire, .release 10]).pool.m_objs =
      [] ∧
    ((Client.fresh (fun k => k + 10) 1 1).run
        [.acquire, .acquire, .release 10, .release 11]).pool.trace =
      [Call.m_fabric 10, Call.m_fabric 11, Call.m_freeFunc 10, Call.m_backFunc 11] ∧
    ((Client.fresh (fun k => k + 10) 1 1).run
        [.acquire, .acquire, .release 10, .release 11]).pool.m_objs = [11] := by
  have h := ctor_eq (fun k => k + 10) 1 1 (by norm_num)
  simp only [Nat.cast_one] at h
  simp only [Client.fresh, h]
  decide

/-- C2 (amended): for every fabric, in a pool built with `startSize = 1` and
`normalSize = 1` the second of two acquires finds idle storage empty and calls
`m_fabric` exactly once, the counter is then 2, and of the two releases that
follow (`freeObject` on whichever objects, in whichever order) the first
discards its object, since the counter is 2 > 1 when it decides, and the
second recycles its object and puts it in idle storage. -/
theorem boundary_scenario_first_discards_second_recycles
    (fabric : Nat → ObjPtr) (o1 o2 : ObjPtr) :
    ((Client.fresh fabric 1 1).run [.acquire]).pool.m_objs = [] ∧
    ((Client.fresh fabric 1 1).run [.acquire, .acquire]).pool.creates =
      ((Client.fresh fabric 1 1).run [.acquire]).pool.creates + 1 ∧
    ((Client.fresh fabric 1 1).run [.acquire, .acquire]).pool.count = 2 ∧
    (((Client.fresh fabric 1 1).run [.acquire, .acquire]).pool.freeObject o1).trace =
      ((Client.fresh fabric 1 1).run [.acquire, .acquire]).pool.trace ++ [Call.m_freeFunc o1] ∧
    (((Client.fresh fabric 1 1).run [.acquire, .acquire]).pool.freeObject o1).m_objs = [] ∧
    ((((Client.fresh fabric 1 1).run [.acquire, .acquire]).pool.freeObject o1).freeObject
        o2).trace =
      ((Client.fresh fabric 1 1).run [.acquire, .acquire]).pool.trace ++
        [Call.m_freeFunc o1, Call.m_backFunc o2] ∧
    ((((Client.fresh fabric 1 1).run [.acquire, .acquire]).pool.freeObject o1).freeObject
        o2).m_objs = [o2] := by
  have h : ctor fabric 1 1 =
      { m_objs := [fabric 0], m_fabric := fabric, m_normalSize := 1, m_shouldDestroy := false,
        m_objsCount := 0, fabricCalls := 1, trace := [Call.m_fabric (fabric 0)],
        destructed := false } := by
    simpa using ctor_eq fabric 1 1 (by norm_num)
  simp only [Client.fresh, h, Client.run, List.foldl, Client.step]
  by_cases h0 : fabric 0 = nullptr
  · rw [object_null_front _ [] (by simp only [h0])]
    simp only []
    rw [object_empty _ rfl]
    simp only []
    rw [freeObject_discard _ o1 (by simp [shouldFree]) (by simp)]
    rw [freeObject_recycle _ o2 (by simp [shouldFree])]
    simp [creates, count, Call.isFabric, List.countP_cons]
  · rw [object_front _ (fabric 0) [] rfl h0]
    simp only []
    rw [object_empty _ rfl]
    simp only []
    rw [freeObject_discard _ o1 (by simp [shouldFree]) (by simp)]
    rw [freeObject_recycle _ o2 (by simp [shouldFree])]
    simp [creates, count, Call.isFabric, List.countP_cons]

/-- C3 (the code at the failing input): the pool built by a builder left at
its defaults, with a default fabric returning 10, 11, ..., has three idle
objects and no handle outstanding; `destroy()`, the deleter of the returned
`Ptr`, then only sets `m_shouldDestroy`: the destructor has not run, the three
objects are still in idle storage and `m_freeFunc` has not been called. -/
theorem destroy_without_handles_discards_nothing :
    (ObjectPoolBuilder.ctor.build (fun k => k + 10)).2.m_objsCount = 0 ∧
    (ObjectPoolBuilder.ctor.build (fun k => k + 10)).2.m_objs = [10, 11, 12] ∧
    (ObjectPoolBuilder.ctor.build (fun k => k + 10)).2.destroy.m_shouldDestroy = true ∧
    (ObjectPoolBuilder.ctor.build (fun k => k + 10)).2.destroy.destructed = false ∧
    (ObjectPoolBuilder.ctor.build (fun k => k + 10)).2.destroy.m_objs = [10, 11, 12] ∧
    (ObjectPoolBuilder.ctor.build (fun k => k + 10)).2.destroy.discards = 0 := by
  have h := ctor_eq (fun k => k + 10) 3 (-1) (by norm_num)
  simp only [Nat.cast_ofNat] at h
  have hb : (ObjectPoolBuilder.ctor.build (fun k => k + 10)).2 =
      ctor (fun k => k + 10) 3 (-1) := rfl
  rw [hb, h]
  decide

/-- C5: for every start size `n` in the non-negative range of `int`, the
constructor calls `m_fabric` exactly `n` times and neither `m_backFunc` nor
`m_freeFunc`; the pool it leaves has the `n` created objects in idle storage
in the order of creation, a counter of 0 and `m_shouldDestroy = false`. -/
theorem ctor_creates_startSize_objects (fabric : Nat → ObjPtr) (n : Nat) (normalSize : Int)
    (h : n < 2147483648) :
    (ctor fabric (n : Int) normalSize).trace =
      (List.range n).map (fun k => Call.m_fabric (fabric k)) ∧
    (ctor fabric (n : Int) normalSize).creates = n ∧
    (ctor fabric (n : Int) normalSize).recycles = 0 ∧
    (ctor fabric (n : Int) normalSize).discards = 0 ∧
    (ctor fabric (n : Int) normalSize).m_objs = (List.range n).map fabric ∧
    (ctor fabric (n : Int) normalSize).m_objs.length = n ∧
    (ctor fabric (n : Int) normalSize).count = 0 ∧
    (ctor fabric (n : Int) normalSize).m_shouldDestroy = false ∧
    (ctor fabric (n : Int) normalSize).m_normalSize = normalSize ∧
    (ctor fabric (n : Int) normalSize).destructed = false := by
  rw [ctor_eq fabric n normalSize h]
  simp [creates, recycles, discards, count, List.countP_map, Call.isFabric, Call.isBack,
    Call.isFree, Function.comp_def]

/-- C5 (witness): the pool of `TEST_F(PoolTest, StartSize)`, whose fabric
returns `nullptr`, built with start size 3 and normal size 5. -/
theorem ctor_creates_startSize_objects_witness :
    (3 : Nat) < 2147483648 ∧
    (ctor (fun _ => nullptr) ((3 : Nat) : Int) 5).creates = 3 ∧
    (ctor (fun _ => nullptr) ((3 : Nat) : Int) 5).m_objs = [nullptr, nullptr, nullptr] :=
  ⟨by decide,
   (ctor_creates_startSize_objects (fun _ => nullptr) 3 5 (by decide)).2.1,
   (ctor_creates_startSize_objects (fun _ => nullptr) 3 5 (by decide)).2.2.2.2.1⟩

/-- C6 (as stated, refuted): idle storage may hold null pointers, which is what
the fabric of `TEST_F(PoolTest, StartSize)` returns.  On the pool of that test
idle storage is non-empty, yet `object()` calls `m_fabric` once more.  With a
fabric whose first result is null and whose later results are 11, 12, ...,
the pool built with start size 2 has idle storage `[nullptr, 11]`; `object()`
pops the null front, calls `m_fabric` and returns the new object 12, not the
front of idle storage. -/
theorem object_null_front_calls_fabric :
    (ctor (fun _ => nullptr) 3 5).m_objs = [nullptr, nullptr, nullptr] ∧
    (ctor (fun _ => nullptr) 3 5).creates = 3 ∧
    (ctor (fun _ => nullptr) 3 5).object.1.creates = 4 ∧
    (ctor (fun k => if k = 0 then nullptr else k + 10) 2 5).m_objs = [nullptr, 11] ∧
    (ctor (fun k => if k = 0 then nullptr else k + 10) 2 5).object.2 = 12 ∧
    (ctor (fun k => if k = 0 then nullptr else k + 10) 2 5).object.1.m_objs = [11] ∧
    (ctor (fun k => if k = 0 then nullptr else k + 10) 2 5).object.1.trace =
      (ctor (fun k => if k = 0 then nullptr else k + 10) 2 5).trace ++ [Call.m_fabric 12] := by
  have h1 := ctor_eq (fun _ => nullptr) 3 5 (by norm_num)
  have h2 := ctor_eq (fun k => if k = 0 then nullptr else k + 10) 2 5 (by norm_num)
  simp only [Nat.cast_ofNat] at h1 h2
  rw [h1, h2]
  decide

/-- C6 (amended): `object()` on any pool state.  If idle storage is non-empty
and its front is not the null pointer, the call returns that front, removes
exactly it (the rest keeps its order) and calls no callable.  If idle storage
is empty the call makes exactly one call, of `m_fabric`, returns the created
object and leaves idle storage empty.  If the front of idle storage is the
null pointer, it is removed and `m_fabric` is called once, its result being
returned.  In every case the counter goes up by exactly 1, and neither
`m_backFunc` nor `m_freeFunc` is called. -/
theorem object_acquire (p : ObjectPool) :
    (∀ front rest, p.m_objs = front :: rest → front ≠ nullptr →
      p.object.2 = front ∧ p.object.1.m_objs = rest ∧ p.object.1.trace = p.trace ∧
      p.object.1.fabricCalls = p.fabricCalls ∧ p.object.1.creates = p.creates) ∧
    (p.m_objs = [] →
      p.object.2 = p.m_fabric p.fabricCalls ∧ p.object.1.m_objs = [] ∧
      p.object.1.trace = p.trace ++ [Call.m_fabric (p.m_fabric p.fabricCalls)] ∧
      p.object.1.fabricCalls = p.fabricCalls + 1 ∧ p.object.1.creates = p.creates + 1) ∧
    (∀ rest, p.m_objs = nullptr :: rest →
      p.object.2 = p.m_fabric p.fabricCalls ∧ p.object.1.m_objs = rest ∧
      p.object.1.trace = p.trace ++ [Call.m_fabric (p.m_fabric p.fabricCalls)] ∧
      p.object.1.fabricCalls = p.fabricCalls + 1 ∧ p.object.1.creates = p.creates + 1) ∧
    p.object.1.m_objsCount = p.m_objsCount + 1 ∧
    p.object.1.recycles = p.recycles ∧
    p.object.1.discards = p.discards ∧
    p.object.1.m_shouldDestroy = p.m_shouldDestroy ∧
    p.object.1.m_normalSize = p.m_normalSize ∧
    p.object.1.destructed = p.destructed := by
  refine ⟨?_, ?_, ?_, ?_⟩
  · intro front rest h hf
    rw [object_front p front rest h hf]
    simp [creates]
  · intro h
    rw [object_empty p h]
    simp [creates, h, Call.isFabric]
  · intro rest h
    rw [object_null_front p rest h]
    simp [creates, Call.isFabric]
  · have h := object_fields p
    exact ⟨h.1, h.2.2.2.2.2, h.2.2.2.2.1, h.2.1, h.2.2.1, h.2.2.2.1⟩

/-- C6 (amended, witness): the three cases on concrete pools. -/
theorem object_acquire_witness :
    (exampleIdle [7, 8]).object.2 = 7 ∧
    (exampleIdle []).object.2 = 12 ∧
    (exampleIdle [nullptr, 8]).object.2 = 12 :=
  ⟨((object_acquire (exampleIdle [7, 8])).1 7 [8] rfl (by decide)).1,
   ((object_acquire (exampleIdle [])).2.1 rfl).1,
   ((object_acquire (exampleIdle [nullptr, 8])).2.2.1 [8] rfl).1⟩

/-- C9 (as stated, refuted): with a fabric returning 10, 11, `nullptr`, 13, ...
and start size 3, two acquires lend 10 and 11 and leave `[nullptr]` in idle
storage.  Releasing 10 and then 11 recycles both, so idle storage is
`[nullptr, 10, 11]`; the next acquire does not return the earlier idle entry
without creating: it calls `m_fabric` and returns the new object 13. -/
theorem fifo_reuse_fails_on_null_entry :
    ((Client.fresh (fun k => if k = 2 then nullptr else k + 10) 3 5).run
        [.acquire, .acquire]).pool.m_objs = [nullptr] ∧
    ((Client.fresh (fun k => if k = 2 then nullptr else k + 10) 3 5).run
        [.acquire, .acquire, .release 10, .release 11]).pool.m_objs = [nullptr, 10, 11] ∧
    ((Client.fresh (fun k => if k = 2 then nullptr else k + 10) 3 5).run
        [.acquire, .acquire, .release 10, .release 11]).pool.trace =
      [Call.m_fabric 10, Call.m_fabric 11, Call.m_fabric nullptr,
       Call.m_backFunc 10, Call.m_backFunc 11] ∧
    ((Client.fresh (fun k => if k = 2 then nullptr else k + 10) 3 5).run
        [.acquire, .acquire, .release 10, .release 11, .acquire]).lent = [13] ∧
    ((Client.fresh (fun k => if k = 2 then nullptr else k + 10) 3 5).run
        [.acquire, .acquire, .release 10, .release 11, .acquire]).pool.creates = 4 := by
  have h := ctor_eq (fun k => if k = 2 then nullptr else k + 10) 3 5 (by norm_num)
  simp only [Nat.cast_ofNat] at h
  simp only [Client.fresh, h]
  decide

/-- C9 (amended): idle storage is reused in FIFO order as long as no null
pointer is involved.  Let the idle storage of a non-draining pool hold `q`
pointers, none of them null, and let non-null `A` and then `B` be released
and both recycled (which a draining pool never does).  Idle storage is then the earlier entries followed by `A`
and `B`, and with no further release the next `q + 2` acquires return the
`q` earlier idle objects in their stored order, then `A`, then `B`, without
any call of `m_fabric`.  For `q = 0` the next two acquires return `A`, `B`. -/
theorem idle_storage_fifo (p : ObjectPool) (A B : ObjPtr)
    (hidle : ∀ o ∈ p.m_objs, o ≠ nullptr) (hA : A ≠ nullptr) (hB : B ≠ nullptr)
    (hrecA : (p.freeObject A).trace = p.trace ++ [Call.m_backFunc A])
    (hrecB : ((p.freeObject A).freeObject B).trace =
      (p.freeObject A).trace ++ [Call.m_backFunc B]) :
    ((p.freeObject A).freeObject B).m_objs = p.m_objs ++ [A, B] ∧
    (acquireN (p.m_objs.length + 2) ((p.freeObject A).freeObject B)).2 = p.m_objs ++ [A, B] ∧
    (acquireN (p.m_objs.length + 2) ((p.freeObject A).freeObject B)).1.trace =
      ((p.freeObject A).freeObject B).trace ∧
    (acquireN (p.m_objs.length + 2) ((p.freeObject A).freeObject B)).1.fabricCalls =
      p.fabricCalls ∧
    (acquireN (p.m_objs.length + 2) ((p.freeObject A).freeObject B)).1.m_objs = [] ∧
    (p.m_objs = [] → (acquireN 2 ((p.freeObject A).freeObject B)).2 = [A, B]) := by
  have hsA := (recycled_iff p A).1 hrecA
  have hsB := (recycled_iff (p.freeObject A) B).1 hrecB
  have eA := freeObject_recycle p A hsA
  have eB := freeObject_recycle (p.freeObject A) B hsB
  have hm : ((p.freeObject A).freeObject B).m_objs = (p.m_objs ++ [A, B]) ++ [] := by
    rw [eB, eA]; simp
  have hnn : ∀ o ∈ p.m_objs ++ [A, B], o ≠ nullptr := by
    intro o ho
    simp only [List.mem_append, List.mem_cons, List.mem_singleton, List.not_mem_nil,
      or_false] at ho
    rcases ho with ho | rfl | rfl
    · exact hidle o ho
    · exact hA
    · exact hB
  have hacq := acquireN_front (p.m_objs ++ [A, B]) _ [] hm hnn
  have hlen : (p.m_objs ++ [A, B]).length = p.m_objs.length + 2 := by simp
  rw [hlen] at hacq
  refine ⟨by simpa using hm, ?_, ?_, ?_, ?_, ?_⟩
  · rw [hacq]
  · rw [hacq]
  · rw [hacq, eB, eA]
  · rw [hacq]
  · intro he
    have := congrArg Prod.snd hacq
    simpa [he] using this

/-- C9 (amended, witness): one idle object 12, and 10 then 11 released. -/
theorem idle_storage_fifo_witness :
    (acquireN 3 ((exampleTwoLent.freeObject 10).freeObject 11)).2 = [12, 10, 11] :=
  (idle_storage_fifo exampleTwoLent 10 11 (by decide) (by decide) (by decide)
    (by decide) (by decide)).2.1

end ObjectPool

namespace Client

/-- C7 (as stated, refuted): the pool of `TEST_F(PoolTest, StartSize)` (start
size 3, normal size 5, a fabric returning `nullptr`) is not draining and the
five acquires keep the number of outstanding handles within 5; its idle
storage is non-empty, yet the first acquire calls `m_fabric`, and the five
acquires make five further `m_fabric` calls, not two.  And with start size
0, normal size 1 and a fabric returning `nullptr`, 11, 12, ..., the first
handle holds null and goes away without `freeObject`, so the counter stays
at 1; the release of the next acquired object, 11, then finds the counter
at 2 > 1 and discards, although at most one handle was ever outstanding. -/
theorem acquire_creates_although_idle_nonempty :
    (fresh (fun _ => nullptr) 3 5).pool.m_objs = [nullptr, nullptr, nullptr] ∧
    (fresh (fun _ => nullptr) 3 5).pool.m_shouldDestroy = false ∧
    (fresh (fun _ => nullptr) 3 5).pool.creates = 3 ∧
    bounded 5 (fresh (fun _ => nullptr) 3 5)
      [.acquire, .acquire, .acquire, .acquire, .acquire] = true ∧
    ((fresh (fun _ => nullptr) 3 5).run [.acquire]).pool.creates = 4 ∧
    ((fresh (fun _ => nullptr) 3 5).run [.acquire]).pool.m_objs = [nullptr, nullptr] ∧
    ((fresh (fun _ => nullptr) 3 5).run
      [.acquire, .acquire, .acquire, .acquire, .acquire]).pool.creates = 8 ∧
    (fresh (fun k => if k = 0 then nullptr else k + 10) 0 1).pool.m_shouldDestroy = false ∧
    valid (fresh (fun k => if k = 0 then nullptr else k + 10) 0 1)
      [.acquire, .release nullptr, .acquire, .release 11] = true ∧
    bounded 1 (fresh (fun k => if k = 0 then nullptr else k + 10) 0 1)
      [.acquire, .release nullptr, .acquire, .release 11] = true ∧
    ((fresh (fun k => if k = 0 then nullptr else k + 10) 0 1).run
      [.acquire, .release nullptr]).pool.count = 1 ∧
    ((fresh (fun k => if k = 0 then nullptr else k + 10) 0 1).run
      [.acquire, .release nullptr, .acquire, .release 11]).pool.trace =
      [Call.m_fabric nullptr, Call.m_fabric 11, Call.m_freeFunc 11] := by
  have h := fresh_eq (fun _ => nullptr) 3 5 (by norm_num)
  have h2 := fresh_eq (fun k => if k = 0 then nullptr else k + 10) 0 1 (by norm_num)
  simp only [Nat.cast_ofNat, Nat.cast_zero] at h h2
  rw [h, h2]
  decide

/-- C7 (amended): take a non-draining pool whose counter equals the number of
outstanding handles, whose fabric never returns the null pointer and whose
idle storage and handles hold no null pointer, and a sequence of acquires
and releases, each release being of a lent object, during which the number
of outstanding handles never exceeds `m_normalSize`.  Then no release calls
`m_freeFunc`: every release calls `m_backFunc` once on its object, appends
it to idle storage and takes one off the counter.  An acquire that finds
idle storage non-empty returns its front and calls nothing; so `m_fabric` is
called only when idle storage is empty, and then once. -/
theorem within_normalSize_every_release_recycles (c : Client) (ops : List Op)
    (hcount : c.pool.m_objsCount = c.lent.length)
    (hdrain : c.pool.m_shouldDestroy = false)
    (hfabric : ∀ k, c.pool.m_fabric k ≠ nullptr)
    (hidle : ∀ o ∈ c.pool.m_objs, o ≠ nullptr)
    (hlent : ∀ o ∈ c.lent, o ≠ nullptr)
    (hops : noDestroy ops = true)
    (hvalid : valid c ops = true)
    (hbound : bounded c.pool.m_normalSize c ops = true) :
    (c.run ops).pool.discards = c.pool.discards ∧
    (c.run ops).pool.recycles = c.pool.recycles + releases ops ∧
    (∀ pre o post, ops = pre ++ Op.release o :: post →
      (c.run (pre ++ [Op.release o])).pool =
        { (c.run pre).pool with
          m_objs := (c.run pre).pool.m_objs ++ [o],
          trace := (c.run pre).pool.trace ++ [Call.m_backFunc o],
          m_objsCount := (c.run pre).pool.m_objsCount - 1 }) ∧
    (∀ pre post, ops = pre ++ Op.acquire :: post →
      ∀ front rest, (c.run pre).pool.m_objs = front :: rest →
        (c.run (pre ++ [Op.acquire])).pool.trace = (c.run pre).pool.trace ∧
        (c.run (pre ++ [Op.acquire])).pool.m_objs = rest ∧
        (c.run (pre ++ [Op.acquire])).lent = (c.run pre).lent ++ [front]) ∧
    (∀ pre post, ops = pre ++ Op.acquire :: post → (c.run pre).pool.m_objs = [] →
        (c.run (pre ++ [Op.acquire])).pool.creates = (c.run pre).pool.creates + 1) := by
  have hall := run_within ops c hcount hdrain hfabric hidle hlent hvalid hbound hops
  have hsplit : ∀ pre post, ops = pre ++ post → noDestroy pre = true := by
    intro pre post e
    subst e
    simp only [noDestroy, List.all_append, Bool.and_eq_true] at hops
    exact hops.1
  have hprefix : ∀ pre post, ops = pre ++ post →
      (c.run pre).pool.m_objsCount = (c.run pre).lent.length ∧
      (c.run pre).pool.m_shouldDestroy = false ∧
      (c.run pre).pool.m_normalSize = c.pool.m_normalSize ∧
      (∀ o ∈ (c.run pre).pool.m_objs, o ≠ nullptr) ∧
      (∀ o ∈ (c.run pre).lent, o ≠ nullptr) := by
    intro pre post e
    have hv := (valid_append pre c post).1 (e ▸ hvalid)
    have hb := bounded_left _ pre c post (e ▸ hbound)
    have hpre := run_within pre c hcount hdrain hfabric hidle hlent hv.1 hb (hsplit pre _ e)
    exact ⟨hpre.1, hpre.2.1, hpre.2.2.1, hpre.2.2.2.2.2.2.1, hpre.2.2.2.2.2.2.2⟩
  refine ⟨hall.2.2.2.1, hall.2.2.2.2.1, ?_, ?_, ?_⟩
  · intro pre o post e
    have hv := (valid_append pre c (Op.release o :: post)).1 (e ▸ hvalid)
    have hb := bounded_append _ pre c (Op.release o :: post) (e ▸ hbound)
    have hpre := hprefix pre _ e
    have hmem : o ∈ (c.run pre).lent := ((valid_cons _ _ _).1 hv.2).1 o rfl
    have ho : o ≠ nullptr := hpre.2.2.2.2 o hmem
    have hhead := bounded_head _ _ _ hb
    have hs := shouldFree_false_of_le (c.run pre).pool hpre.2.1
      (by rw [hpre.1, hpre.2.2.1]; exact hhead)
    rw [run_append]
    show ((c.run pre).step (Op.release o)).pool = _
    rw [step_release_of_ne _ o ho]
    simp only []
    rw [ObjectPool.freeObject_recycle (c.run pre).pool o hs]
  · intro pre post e front rest hm
    have hpre := hprefix pre _ e
    have hf : front ≠ nullptr :=
      hpre.2.2.2.1 front (by rw [hm]; exact List.mem_cons_self _ _)
    rw [run_append]
    show ((c.run pre).step Op.acquire).pool.trace = _ ∧
      ((c.run pre).step Op.acquire).pool.m_objs = _ ∧ ((c.run pre).step Op.acquire).lent = _
    simp only [step]
    rw [ObjectPool.object_front (c.run pre).pool front rest hm hf]
    exact ⟨rfl, rfl, rfl⟩
  · intro pre post _ hm
    rw [run_append]
    show ((c.run pre).step Op.acquire).pool.creates = _
    simp only [step]
    rw [ObjectPool.object_empty (c.run pre).pool hm]
    simp [ObjectPool.creates, Call.isFabric]

/-- C7 (amended, witness): the scenario `startSize = 3`, `normalSize = 5` with
a fabric that never returns null.  After construction the counter is 0 and
3 objects were created; five acquires create two more and bring the counter
to 5; releasing all five recycles all five; one more acquire and release
creates nothing and recycles once.  Nothing is ever discarded. -/
theorem within_normalSize_every_release_recycles_witness :
    ((fresh (fun k => k + 10) 3 5).run scenarioOps).pool.discards =
      (fresh (fun k => k + 10) 3 5).pool.discards ∧
    ((fresh (fun k => k + 10) 3 5).run scenarioOps).pool.recycles =
      (fresh (fun k => k + 10) 3 5).pool.recycles + releases scenarioOps ∧
    (fresh (fun k => k + 10) 3 5).pool.count = 0 ∧
    (fresh (fun k => k + 10) 3 5).pool.creates = 3 ∧
    ((fresh (fun k => k + 10) 3 5).run (scenarioOps.take 5)).pool.creates = 5 ∧
    ((fresh (fun k => k + 10) 3 5).run (scenarioOps.take 5)).pool.count = 5 ∧
    ((fresh (fun k => k + 10) 3 5).run (scenarioOps.take 10)).pool.recycles = 5 ∧
    ((fresh (fun k => k + 10) 3 5).run (scenarioOps.take 10)).pool.count = 0 ∧
    ((fresh (fun k => k + 10) 3 5).run scenarioOps).pool.creates = 5 ∧
    ((fresh (fun k => k + 10) 3 5).run scenarioOps).pool.recycles = 6 ∧
    ((fresh (fun k => k + 10) 3 5).run scenarioOps).pool.discards = 0 := by
  have h := fresh_eq (fun k => k + 10) 3 5 (by norm_num)
  simp only [Nat.cast_ofNat] at h
  have key := within_normalSize_every_release_recycles (fresh (fun k => k + 10) 3 5)
    scenarioOps (by rw [h]; rfl) (by rw [h])
    (by rw [h]; exact fun k => Nat.succ_ne_zero (k + 9))
    (by rw [h]; decide) (by rw [h]; decide)
    (by decide) (by rw [h]; decide) (by rw [h]; decide)
  refine ⟨key.1, key.2.1, ?_⟩
  rw [h]
  decide

/-- C10 (as stated, refuted): on the pool of `TEST_F(PoolTest, StartSize)`,
whose fabric returns `nullptr`, an acquire gives a handle on the null
pointer; when that handle goes away `freeObject` is not called, so with no
handle outstanding, one acquire and one release performed and the pool not
torn down, `count()` is 1. -/
theorem count_stays_up_after_null_handle :
    valid (fresh (fun _ => nullptr) 3 5) [.acquire, .release nullptr] = true ∧
    ((fresh (fun _ => nullptr) 3 5).run [.acquire]).lent = [nullptr] ∧
    ((fresh (fun _ => nullptr) 3 5).run [.acquire, .release nullptr]).lent = [] ∧
    ((fresh (fun _ => nullptr) 3 5).run [.acquire, .release nullptr]).pool.destructed =
      false ∧
    ((fresh (fun _ => nullptr) 3 5).run [.acquire, .release nullptr]).pool.count = 1 ∧
    (acquires [.acquire, .release nullptr] : Int) - releases [.acquire, .release nullptr] = 0 := by
  have h := fresh_eq (fun _ => nullptr) 3 5 (by norm_num)
  simp only [Nat.cast_ofNat] at h
  rw [h]
  decide

/-- C10 (amended): take a pool whose counter equals the number of outstanding
handles (a freshly constructed pool has both at 0) and a sequence of
operations in which each release is of a handle outstanding at that moment,
no handle holds the null pointer and at most `2^31 - 1` handles are
outstanding at a time.  After every operation of the sequence that leaves
the pool not torn down, `count()` is the number of outstanding handles,
which is the initial number plus the acquires minus the releases performed
so far; it is never negative, it is within the range of the 32-bit counter,
and idle storage does not enter into it. -/
theorem count_is_outstanding_handles (c : Client) (pre post : List Op)
    (hcount : c.pool.m_objsCount = c.lent.length)
    (hvalid : valid c (pre ++ post) = true)
    (hnonnull : nonNull c (pre ++ post) = true)
    (hrange : bounded 2147483647 c (pre ++ post) = true)
    (hlive : (c.run pre).pool.destructed = false) :
    (c.run pre).pool.count = (c.run pre).lent.length ∧
    (c.run pre).pool.count = c.pool.count + acquires pre - releases pre ∧
    (c.lent = [] → (c.run pre).pool.count = (acquires pre : Int) - releases pre) ∧
    0 ≤ (c.run pre).pool.count ∧
    (c.run pre).pool.count ≤ 2147483647 ∧
    ObjectPool.wrapInt32 (c.run pre).pool.count = (c.run pre).pool.count := by
  have hv := ((valid_append pre c post).1 hvalid).1
  have hnn := released_ne_null pre c hv (nonNull_left pre c post hnonnull)
  have h := run_count pre c hcount hv hnn hlive
  have hb := bounded_head _ _ _ (bounded_append _ pre c post hrange)
  have hle : (c.run pre).pool.count ≤ 2147483647 := by
    simp only [ObjectPool.count, h.1]
    exact hb
  have hge : 0 ≤ (c.run pre).pool.count := by
    simp only [ObjectPool.count, h.1]
    omega
  refine ⟨h.1, h.2, ?_, hge, hle, ?_⟩
  · intro he
    have h0 : c.pool.m_objsCount = 0 := by rw [hcount, he]; rfl
    simp only [ObjectPool.count, h.2, h0]
    omega
  · simp only [ObjectPool.wrapInt32]
    omega

/-- C10 (amended, witness): on a fresh pool with start size 3, after two
acquires and one release `count()` is 1, with one release still to come. -/
theorem count_is_outstanding_handles_witness :
    ((fresh (fun k => k + 10) 3 5).run [.acquire, .acquire, .release 10]).pool.count =
      (acquires [.acquire, .acquire, .release 10] : Int) -
        releases [.acquire, .acquire, .release 10] ∧
    ((fresh (fun k => k + 10) 3 5).run [.acquire, .acquire, .release 10]).pool.count = 1 ∧
    ((fresh (fun k => k + 10) 3 5).run [.acquire, .acquire, .release 10]).pool.m_objs =
      [12, 10] := by
  have h := fresh_eq (fun k => k + 10) 3 5 (by norm_num)
  simp only [Nat.cast_ofNat] at h
  have key := count_is_outstanding_handles (fresh (fun k => k + 10) 3 5)
    [.acquire, .acquire, .release 10] [.release 11]
    (by rw [h]; rfl) (by rw [h]; decide) (by rw [h]; decide) (by rw [h]; decide)
    (by rw [h]; decide)
  refine ⟨key.2.2.1 (by rw [h]), ?_⟩
  rw [h]
  decide

end Client

namespace ObjectPool

/-- C11: on every pool state the destructor `~ObjectPool` calls `m_freeFunc`
once on each entry of idle storage, front to back, calls neither
`m_backFunc` nor `m_fabric`, and leaves idle storage empty. -/
theorem destructor_discards_idle_front_to_back (p : ObjectPool) :
    p.destructor.trace = p.trace ++ p.m_objs.map Call.m_freeFunc ∧
    p.destructor.m_objs = [] ∧
    p.destructor.discards = p.discards + p.m_objs.length ∧
    p.destructor.recycles = p.recycles ∧
    p.destructor.creates = p.creates ∧
    p.destructor.destructed = true ∧
    (∀ o, (p.destructor.trace.drop p.trace.length).count (Call.m_freeFunc o) =
      p.m_objs.count o) := by
  have hinj : Function.Injective Call.m_freeFunc := fun a b hab => by injection hab
  rw [destructor_eq]
  refine ⟨rfl, rfl, ?_, ?_, ?_, rfl, ?_⟩
  · simp only [discards, List.countP_append, countP_isFree_map_freeFunc]
  · simp only [recycles, List.countP_append, countP_isBack_map_freeFunc, Nat.add_zero]
  · simp only [creates, List.countP_append, countP_isFabric_map_freeFunc, Nat.add_zero]
  · intro o
    simp [List.count_map_of_injective _ _ hinj]

/-- C11 (witness): the pool of `TEST_F(PoolTest, Destructor)`, built with start
size 8 from a fabric that always returns the same object (here 77) and
destructed at once: 8 `m_freeFunc` calls and no `m_backFunc` call. -/
theorem destructor_discards_idle_front_to_back_witness :
    (ctor (fun _ => 77) 8 8).destructor.m_objs = [] ∧
    (ctor (fun _ => 77) 8 8).destructor.discards = 8 ∧
    (ctor (fun _ => 77) 8 8).destructor.recycles = 0 := by
  have h := ctor_eq (fun _ => 77) 8 8 (by norm_num)
  simp only [Nat.cast_ofNat] at h
  have key := destructor_discards_idle_front_to_back (ctor (fun _ => 77) 8 8)
  refine ⟨key.2.1, ?_, ?_⟩
  · rw [key.2.2.1, h]; decide
  · rw [key.2.2.2.1, h]; decide

end ObjectPool

namespace ObjectPoolBuilder

theorem applySetters_fields (calls : List SetterCall) : ∀ (b : ObjectPoolBuilder),
    (b.applySetters calls).m_startPoolSize = lastStart b.m_startPoolSize calls ∧
    (b.applySetters calls).m_normalPoolSize = lastNormal b.m_normalPoolSize calls ∧
    (b.applySetters calls).m_connectionFabric = b.m_connectionFabric := by
  induction calls with
  | nil => intro b; exact ⟨rfl, rfl, rfl⟩
  | cons call calls ih =>
    intro b
    cases call with
    | start size => exact ih (b.setStartPoolSize size)
    | normal size => exact ih (b.setNormalPoolSize size)

/-- C13: `build()` on a builder left at its size defaults constructs the pool
with start size 3 and normal size -1, whatever callables were set; with a
normal size that is not positive no release of a non-draining pool discards.
In general the pool is constructed with the configured start size, and with
the configured start size as normal size when the configured normal size is
0, the configured normal size otherwise. -/
theorem build_sizes (b : ObjectPoolBuilder) (newObject : Nat → ObjPtr) :
    (ObjectPoolBuilder.ctor.build newObject).2 = ObjectPool.ctor newObject 3 (-1) ∧
    (∀ fabric, ((ObjectPoolBuilder.ctor.setObjectFabric fabric).setObjectFreeFunction
        |>.setObjectBackToPoolFunction |>.build newObject).2 = ObjectPool.ctor fabric 3 (-1)) ∧
    (ObjectPoolBuilder.ctor.build newObject).2.m_normalSize = -1 ∧
    (ObjectPoolBuilder.ctor.build newObject).2.m_objs.length = 3 ∧
    (∀ (p : ObjectPool) (o : ObjPtr), p.m_normalSize ≤ 0 → p.m_shouldDestroy = false →
      (p.freeObject o).trace = p.trace ++ [Call.m_backFunc o] ∧
      (p.freeObject o).discards = p.discards) ∧
    (b.build newObject).2 =
      ObjectPool.ctor (b.m_connectionFabric.getD newObject) b.m_startPoolSize
        (if b.m_normalPoolSize = 0 then b.m_startPoolSize else b.m_normalPoolSize) ∧
    (b.build newObject).2.m_normalSize =
      (if b.m_normalPoolSize = 0 then b.m_startPoolSize else b.m_normalPoolSize) := by
  have h3 := ObjectPool.ctor_eq newObject 3 (-1) (by norm_num)
  simp only [Nat.cast_ofNat] at h3
  have hb : (ObjectPoolBuilder.ctor.build newObject).2 = ObjectPool.ctor newObject 3 (-1) := rfl
  refine ⟨hb, fun _ => rfl, ?_, ?_, ?_, rfl, ?_⟩
  · rw [hb, h3]
  · rw [hb, h3]; simp
  · intro p o hN hd
    have hs : p.shouldFree = false := by
      apply Bool.eq_false_iff.2
      rw [Ne, ObjectPool.shouldFree_iff]
      rintro (h | h)
      · rw [hd] at h; exact Bool.noConfusion h
      · omega
    rw [ObjectPool.freeObject_recycle p o hs]
    simp [ObjectPool.discards, Call.isFree]
  · exact (ObjectPool.ctorLoop_fields _ _).1

/-- C13 (witness): a pool with normal size -1 and two handles outstanding
recycles a released object, and the builder with start size 4 and normal size
0 builds a pool of normal size 4. -/
theorem build_sizes_witness :
    ({ ObjectPool.exampleTwoLent with m_normalSize := -1 }.freeObject 10).trace =
      [Call.m_backFunc 10] ∧
    (((ObjectPoolBuilder.ctor.setStartPoolSize 4).setNormalPoolSize 0).build
      (fun k => k + 10)).2.m_normalSize = 4 :=
  ⟨((build_sizes ObjectPoolBuilder.ctor (fun k => k + 10)).2.2.2.2.1
      { ObjectPool.exampleTwoLent with m_normalSize := -1 } 10 (by decide) rfl).1,
   (build_sizes ((ObjectPoolBuilder.ctor.setStartPoolSize 4).setNormalPoolSize 0)
      (fun k => k + 10)).2.2.2.2.2.2⟩

/-- C19: for a fresh builder and every chain of `setStartPoolSize` and
`setNormalPoolSize` calls, the pool of the first `build()` is constructed
with the last start size set (3 if none) and, as normal size, the last normal
size set (-1 if none), replaced by that start size when it is 0.  So two
chains with the same last value for each setter build the same pool,
whatever the order of their calls; `setNormalPoolSize(0).setStartPoolSize(s)`
and `setStartPoolSize(s).setNormalPoolSize(0)` both give normal size `s`. -/
theorem build_independent_of_setter_order (calls : List SetterCall)
    (newObject : Nat → ObjPtr) :
    ((ObjectPoolBuilder.ctor.applySetters calls).build newObject).2 =
      ObjectPool.ctor newObject (lastStart 3 calls)
        (if lastNormal (-1) calls = 0 then lastStart 3 calls else lastNormal (-1) calls) ∧
    ((ObjectPoolBuilder.ctor.applySetters calls).build newObject).2.m_normalSize =
      (if lastNormal (-1) calls = 0 then lastStart 3 calls else lastNormal (-1) calls) ∧
    (∀ other : List SetterCall,
      lastStart 3 other = lastStart 3 calls → lastNormal (-1) other = lastNormal (-1) calls →
      ((ObjectPoolBuilder.ctor.applySetters other).build newObject).2 =
        ((ObjectPoolBuilder.ctor.applySetters calls).build newObject).2) ∧
    (∀ s : Int,
      (((ObjectPoolBuilder.ctor.setNormalPoolSize 0).setStartPoolSize s).build
        newObject).2.m_normalSize = s ∧
      (((ObjectPoolBuilder.ctor.setStartPoolSize s).setNormalPoolSize 0).build
        newObject).2.m_normalSize = s ∧
      (((ObjectPoolBuilder.ctor.setNormalPoolSize 0).setStartPoolSize s).build newObject).2 =
        (((ObjectPoolBuilder.ctor.setStartPoolSize s).setNormalPoolSize 0).build
          newObject).2) := by
  have key : ∀ cs : List SetterCall,
      ((ObjectPoolBuilder.ctor.applySetters cs).build newObject).2 =
        ObjectPool.ctor newObject (lastStart 3 cs)
          (if lastNormal (-1) cs = 0 then lastStart 3 cs else lastNormal (-1) cs) := by
    intro cs
    have h := applySetters_fields cs ObjectPoolBuilder.ctor
    simp only [build, buildDefaults, h.1, h.2.1, h.2.2]
    rfl
  refine ⟨key calls, ?_, ?_, ?_⟩
  · rw [key calls]
    exact (ObjectPool.ctorLoop_fields _ _).1
  · intro other h1 h2
    rw [key other, key calls, h1, h2]
  · intro s
    refine ⟨?_, ?_, rfl⟩
    · exact (ObjectPool.ctorLoop_fields _ _).1
    · exact (ObjectPool.ctorLoop_fields _ _).1

/-- C19 (witness): the two orders of `setNormalPoolSize(0)` and
`setStartPoolSize(2)` build the same pool, of normal size 2. -/
theorem build_independent_of_setter_order_witness :
    ((ObjectPoolBuilder.ctor.applySetters [.normal 0, .start 2]).build (fun k => k + 10)).2 =
      ((ObjectPoolBuilder.ctor.applySetters [.start 2, .normal 0]).build (fun k => k + 10)).2 ∧
    ((ObjectPoolBuilder.ctor.applySetters [.start 2, .normal 0]).build
      (fun k => k + 10)).2.m_normalSize = 2 :=
  ⟨(build_independent_of_setter_order [.start 2, .normal 0] (fun k => k + 10)).2.2.1
      [.normal 0, .start 2] rfl rfl,
   (build_independent_of_setter_order [.start 2, .normal 0] (fun k => k + 10)).2.1⟩

end ObjectPoolBuilder

namespace ObjectPool

/-- C14: `destroy()` sets `m_shouldDestroy` and nothing else: idle storage, the
counter and the normal size are unchanged and no callable is called; and
`destroy()` twice leaves the same state as `destroy()` once. -/
theorem destroy_sets_flag_only (p : ObjectPool) :
    p.destroy.m_shouldDestroy = true ∧
    p.destroy.m_objs = p.m_objs ∧
    p.destroy.m_objsCount = p.m_objsCount ∧
    p.destroy.m_normalSize = p.m_normalSize ∧
    p.destroy.trace = p.trace ∧
    p.destroy.fabricCalls = p.fabricCalls ∧
    p.destroy.creates = p.creates ∧
    p.destroy.recycles = p.recycles ∧
    p.destroy.discards = p.discards ∧
    p.destroy.destructed = p.destructed ∧
    p.destroy = { p with m_shouldDestroy := true } ∧
    p.destroy.destroy = p.destroy :=
  ⟨rfl, rfl, rfl, rfl, rfl, rfl, rfl, rfl, rfl, rfl, rfl, rfl⟩

/-- C20: for a start size in the range of `int` with 32-bit wrap-around of the
decrement, the constructor calls `m_fabric` `startSize mod 2^32` times.  For
a negative start size that is `2^32 + startSize` calls, at least one; the
loop does not stop by counting down: after any `k ≤ startSize + 2^31`
iterations its variable is `startSize - k`, still non-zero, and it goes on.
The number of calls equals the start size exactly when the start size is not
negative. -/
theorem ctor_negative_startSize_wraps (fabric : Nat → ObjPtr) (startSize normalSize : Int)
    (hlow : -2147483648 ≤ startSize) (hhigh : startSize < 2147483648) :
    (startSize < 0 →
      ((ctor fabric startSize normalSize).creates : Int) = 4294967296 + startSize ∧
      1 ≤ (ctor fabric startSize normalSize).creates ∧
      (∀ (k : Nat) (p : ObjectPool), (k : Int) ≤ startSize + 2147483648 →
        startSize - k ≠ 0 ∧
        ctorLoop p startSize = ctorLoop (pushFabric^[k] p) (startSize - k))) ∧
    (ctor fabric startSize normalSize).m_objs.length =
      (ctor fabric startSize normalSize).creates ∧
    (((ctor fabric startSize normalSize).creates : Int) = startSize ↔ 0 ≤ startSize) := by
  have hc : (ctor fabric startSize normalSize).creates = (startSize % 4294967296).toNat := by
    rw [ctor_eq_int fabric startSize normalSize hlow hhigh]
    simp only [creates, countP_isFabric_map_fabric, List.length_range]
  have hl : (ctor fabric startSize normalSize).m_objs.length =
      (startSize % 4294967296).toNat := by
    rw [ctor_eq_int fabric startSize normalSize hlow hhigh]
    simp
  refine ⟨?_, by rw [hc, hl], ?_⟩
  · intro hneg
    refine ⟨by rw [hc]; omega, by rw [hc]; omega, ?_⟩
    intro k p hk
    exact ⟨by omega, ctorLoop_negative_steps k p startSize hneg (by omega)⟩
  · rw [hc]
    constructor <;> intro h <;> omega

/-- C20 (witness): start size -1 makes `2^32 - 1` calls of the fabric, start
size 3 makes three. -/
theorem ctor_negative_startSize_wraps_witness :
    ((ctor (fun k => k + 10) (-1) 5).creates : Int) = 4294967295 ∧
    ((ctor (fun k => k + 10) 3 5).creates : Int) = 3 :=
  ⟨((ctor_negative_startSize_wraps (fun k => k + 10) (-1) 5 (by decide) (by decide)).1
      (by decide)).1,
   (ctor_negative_startSize_wraps (fun k => k + 10) 3 5 (by decide) (by decide)).2.2.2
      (by decide)⟩

/-- C12 (as stated, refuted): with a fabric whose first result is the null
pointer (later ones 11, 12, ...), the pool built with start size 1 and normal
size 1 holds `[nullptr]`; one acquire-release cycle pops the null entry and
calls `m_fabric` once more, so create is called beyond construction. -/
theorem cycle_creates_on_null_entry :
    (ctor (fun k => if k = 0 then nullptr else k + 10) 1 1).m_objs = [nullptr] ∧
    (ctor (fun k => if k = 0 then nullptr else k + 10) 1 1).creates = 1 ∧
    (cycles 1 (ctor (fun k => if k = 0 then nullptr else k + 10) 1 1)).creates = 2 ∧
    (cycles 1 (ctor (fun k => if k = 0 then nullptr else k + 10) 1 1)).trace =
      [Call.m_fabric nullptr, Call.m_fabric 11, Call.m_backFunc 11] := by
  have h := ctor_eq (fun k => if k = 0 then nullptr else k + 10) 1 1 (by norm_num)
  simp only [Nat.cast_one] at h
  rw [h]
  decide

/-- C12 (amended): let the pool be freshly constructed with start size
`n ≥ 1` (in `int` range) and any normal size, from a fabric whose `n`
results are not null.  Then `m` cycles of acquire immediately followed by
release call `m_backFunc` exactly `m` times and neither `m_fabric` nor
`m_freeFunc`; idle storage still holds the `n` objects (rotated by `m`) and
the counter is 0.  The destructor then calls `m_freeFunc` exactly `n` times. -/
theorem cycles_recycle_without_creating (fabric : Nat → ObjPtr) (n : Nat) (normalSize : Int)
    (m : Nat) (hn : 1 ≤ n) (hint : n < 2147483648) (hnull : ∀ k, k < n → fabric k ≠ nullptr) :
    (cycles m (ctor fabric n normalSize)).recycles = m ∧
    (cycles m (ctor fabric n normalSize)).creates = n ∧
    (cycles m (ctor fabric n normalSize)).creates = (ctor fabric n normalSize).creates ∧
    (cycles m (ctor fabric n normalSize)).discards = 0 ∧
    (cycles m (ctor fabric n normalSize)).m_objs = ((List.range n).map fabric).rotate m ∧
    (cycles m (ctor fabric n normalSize)).m_objs.length = n ∧
    (cycles m (ctor fabric n normalSize)).count = 0 ∧
    (cycles m (ctor fabric n normalSize)).m_shouldDestroy = false ∧
    (cycles m (ctor fabric n normalSize)).destructor.discards = n ∧
    (cycles m (ctor fabric n normalSize)).destructor.recycles = m := by
  have hc := ctor_eq fabric n normalSize hint
  have hne : (ctor fabric n normalSize).m_objs ≠ [] := by
    rw [hc]
    simp only [ne_eq, List.map_eq_nil_iff, List.range_eq_nil]
    omega
  have hnn : ∀ o ∈ (ctor fabric n normalSize).m_objs, o ≠ nullptr := by
    rw [hc]
    intro o ho
    simp only [List.mem_map, List.mem_range] at ho
    obtain ⟨k, hk, rfl⟩ := ho
    exact hnull k hk
  have h := cycles_eq m (ctor fabric n normalSize) hne hnn (by rw [hc]) (by rw [hc])
  have hrec : (ctor fabric n normalSize).recycles = 0 := by
    rw [hc]; simp only [recycles]
    induction (List.range n) with
    | nil => rfl
    | cons a l ih => simp [List.countP_cons, Call.isBack, ih]
  have hdis : (ctor fabric n normalSize).discards = 0 := by
    rw [hc]; simp only [discards]
    induction (List.range n) with
    | nil => rfl
    | cons a l ih => simp [List.countP_cons, Call.isFree, ih]
  have hcre : (ctor fabric n normalSize).creates = n := by
    rw [hc]; simp only [creates, countP_isFabric_map_fabric, List.length_range]
  have hobjs : (ctor fabric n normalSize).m_objs = (List.range n).map fabric := by rw [hc]
  have hlen : (cycles m (ctor fabric n normalSize)).m_objs.length = n := by
    rw [h.1, hobjs]; simp
  have hd := destructor_eq (cycles m (ctor fabric n normalSize))
  refine ⟨by rw [h.2.1, hrec]; omega, by rw [h.2.2.1, hcre], h.2.2.1,
    by rw [h.2.2.2.1, hdis], by rw [h.1, hobjs], hlen, h.2.2.2.2.2.1, h.2.2.2.2.2.2.1, ?_, ?_⟩
  · rw [hd]
    simp only [discards, List.countP_append, countP_isFree_map_freeFunc, hlen]
    have := h.2.2.2.1
    simp only [discards] at this hdis
    rw [this, hdis]
    omega
  · rw [hd]
    simp only [recycles, List.countP_append, countP_isBack_map_freeFunc]
    have := h.2.1
    simp only [recycles] at this hrec
    rw [this, hrec]
    omega

/-- C12 (amended, witness): the pool of `TEST_F(PoolTest, BackToPool)`, start
size 8 and normal size 8 with a fabric that always returns the same object
(here 77), after 8 cycles: 8 `m_backFunc` calls, and 8 `m_freeFunc` calls by
the destructor. -/
theorem cycles_recycle_without_creating_witness :
    (cycles 8 (ctor (fun _ => 77) ((8 : Nat) : Int) 8)).recycles = 8 ∧
    (cycles 8 (ctor (fun _ => 77) ((8 : Nat) : Int) 8)).creates = 8 ∧
    (cycles 8 (ctor (fun _ => 77) ((8 : Nat) : Int) 8)).discards = 0 ∧
    (cycles 8 (ctor (fun _ => 77) ((8 : Nat) : Int) 8)).destructor.discards = 8 :=
  ⟨(cycles_recycle_without_creating (fun _ => 77) 8 8 8 (by decide) (by decide)
      (fun _ _ => Nat.succ_ne_zero 76)).1,
   (cycles_recycle_without_creating (fun _ => 77) 8 8 8 (by decide) (by decide)
      (fun _ _ => Nat.succ_ne_zero 76)).2.1,
   (cycles_recycle_without_creating (fun _ => 77) 8 8 8 (by decide) (by decide)
      (fun _ _ => Nat.succ_ne_zero 76)).2.2.2.1,
   (cycles_recycle_without_creating (fun _ => 77) 8 8 8 (by decide) (by decide)
      (fun _ _ => Nat.succ_ne_zero 76)).2.2.2.2.2.2.2.2.1⟩

end ObjectPool

namespace Client

/-- C15: `m_shouldDestroy` is false after construction (for any start size),
`object()` and `freeObject()` never change it and `destroy()` sets it to
true.  Hence along any sequence of operations a draining pool stays
draining, a sequence without `destroy()` leaves the flag as it was, and a
pool on which `destroy()` was never called is not draining. -/
theorem shouldDestroy_monotone (c : Client) (ops : List Op) :
    (∀ fabric startSize normalSize,
      (ObjectPool.ctor fabric startSize normalSize).m_shouldDestroy = false) ∧
    (∀ p : ObjectPool, p.object.1.m_shouldDestroy = p.m_shouldDestroy) ∧
    (∀ (p : ObjectPool) (o : ObjPtr), (p.freeObject o).m_shouldDestroy = p.m_shouldDestroy) ∧
    (∀ p : ObjectPool, p.destroy.m_shouldDestroy = true) ∧
    (c.pool.m_shouldDestroy = true → (c.run ops).pool.m_shouldDestroy = true) ∧
    (noDestroy ops = true → (c.run ops).pool.m_shouldDestroy = c.pool.m_shouldDestroy) ∧
    (∀ fabric startSize normalSize, noDestroy ops = true →
      ((fresh fabric startSize normalSize).run ops).pool.m_shouldDestroy = false) ∧
    ((c.run ops).pool.m_shouldDestroy = true →
      c.pool.m_shouldDestroy = true ∨ Op.destroy ∈ ops) := by
  have hctor : ∀ fabric startSize normalSize,
      (ObjectPool.ctor fabric startSize normalSize).m_shouldDestroy = false :=
    fun fabric startSize normalSize => (ObjectPool.ctorLoop_fields _ startSize).2.1
  refine ⟨hctor, fun p => (ObjectPool.object_fields p).2.1,
    fun p o => (ObjectPool.freeObject_fields p o).1, fun _ => rfl, ?_, ?_, ?_, ?_⟩
  · intro h
    rw [run_shouldDestroy, h]
    rfl
  · intro h
    rw [run_shouldDestroy, h]
    simp
  · intro fabric startSize normalSize h
    rw [run_shouldDestroy, h]
    simp [fresh, hctor]
  · intro h
    rw [run_shouldDestroy] at h
    simp only [Bool.or_eq_true, Bool.not_eq_true', noDestroy] at h
    rcases h with h | h
    · exact Or.inl h
    · right
      rw [List.all_eq_false] at h
      obtain ⟨x, hx, hx2⟩ := h
      simp only [ne_eq, decide_not, Bool.not_eq_true, Bool.not_eq_false',
        decide_eq_true_eq] at hx2
      exact hx2 ▸ hx

/-- C15 (witness): on the example pool with two handles outstanding, acquires
and releases leave the flag false, and once `destroy()` is among the
operations the flag is true and stays so. -/
theorem shouldDestroy_monotone_witness :
    (({ pool := ObjectPool.exampleTwoLent, lent := [10, 11] } : Client).run
      [.acquire, .release 10]).pool.m_shouldDestroy = false ∧
    (({ pool := ObjectPool.exampleTwoLent.destroy, lent := [10, 11] } : Client).run
      [.acquire, .release 10]).pool.m_shouldDestroy = true :=
  ⟨((shouldDestroy_monotone { pool := ObjectPool.exampleTwoLent, lent := [10, 11] }
      [.acquire, .release 10]).2.2.2.2.2.1 (by decide)).trans rfl,
   (shouldDestroy_monotone { pool := ObjectPool.exampleTwoLent.destroy, lent := [10, 11] }
      [.acquire, .release 10]).2.2.2.2.1 rfl⟩

/-- C16: a release takes the teardown branch of `freeObject` (`delete this`,
which runs the destructor and so discards every object still idle) if and
only if `m_shouldDestroy` is true and the counter is 0 after the decrement
of that release.  When it does not, the destructor does not run: one call
is made, for the released object, and idle storage keeps its entries.  A
release on a non-draining pool never tears it down, even when it brings the
counter to 0.  Along every sequence of operations from a state whose counter
is the number of outstanding handles, each release being of a lent object,
the teardown branch is taken at most once. -/
theorem teardown_iff_draining_and_zero (p : ObjectPool) (object : ObjPtr)
    (c : Client) (ops : List Op) :
    (p.freeObjectTearsDown object = true ↔
      (p.m_shouldDestroy = true ∧
        (ObjectPool.freeObjectDecrement (p.freeObjectDispose object)).m_objsCount = 0)) ∧
    (ObjectPool.freeObjectDecrement (p.freeObjectDispose object)).m_objsCount =
      p.m_objsCount - 1 ∧
    (p.freeObjectTearsDown object = true →
      (p.freeObject object).destructed = true ∧
      (p.freeObject object).m_objs = [] ∧
      (p.freeObject object).trace =
        p.trace ++ Call.m_freeFunc object :: p.m_objs.map Call.m_freeFunc) ∧
    (p.freeObjectTearsDown object = false →
      (p.freeObject object).destructed = p.destructed ∧
      (p.freeObject object).trace.length = p.trace.length + 1 ∧
      ((p.freeObject object).m_objs = p.m_objs ∨
        (p.freeObject object).m_objs = p.m_objs ++ [object])) ∧
    (p.destructed = false →
      ((p.freeObject object).destructed = true ↔
        (p.m_shouldDestroy = true ∧ p.m_objsCount - 1 = 0))) ∧
    (p.m_shouldDestroy = false →
      p.freeObjectTearsDown object = false ∧
      (p.freeObject object).destructed = p.destructed) ∧
    (c.pool.m_objsCount = c.lent.length → valid c ops = true → teardowns c ops ≤ 1) := by
  have hiff := ObjectPool.freeObjectTearsDown_iff p object
  have hdec : (ObjectPool.freeObjectDecrement (p.freeObjectDispose object)).m_objsCount =
      p.m_objsCount - 1 := by
    cases hs : p.shouldFree <;>
      simp [ObjectPool.freeObjectDecrement, ObjectPool.freeObjectDispose, hs,
        ObjectPool.callFreeFunc, ObjectPool.callBackFunc]
  have hno : p.freeObjectTearsDown object = false →
      (p.freeObject object).destructed = p.destructed ∧
      (p.freeObject object).trace.length = p.trace.length + 1 ∧
      ((p.freeObject object).m_objs = p.m_objs ∨
        (p.freeObject object).m_objs = p.m_objs ++ [object]) := by
    intro h
    have hnt : ¬ (p.m_shouldDestroy = true ∧ p.m_objsCount = 1) := by
      intro ht
      rw [hiff.2 ht] at h
      exact Bool.noConfusion h
    cases hs : p.shouldFree
    · rw [ObjectPool.freeObject_recycle p object hs]
      simp
    · rw [ObjectPool.freeObject_discard p object hs hnt]
      simp
  have hyes : p.freeObjectTearsDown object = true →
      (p.freeObject object).destructed = true ∧
      (p.freeObject object).m_objs = [] ∧
      (p.freeObject object).trace =
        p.trace ++ Call.m_freeFunc object :: p.m_objs.map Call.m_freeFunc := by
    intro h
    have ht := hiff.1 h
    rw [ObjectPool.freeObject_teardown p object ht.1 ht.2]
    exact ⟨rfl, rfl, rfl⟩
  refine ⟨?_, hdec, hyes, hno, ?_, ?_, fun h => teardowns_le_one ops c (le_of_eq h.symm)⟩
  · rw [hiff, hdec]
    constructor
    · rintro ⟨a, b⟩; exact ⟨a, by omega⟩
    · rintro ⟨a, b⟩; exact ⟨a, by omega⟩
  · intro hlive
    constructor
    · intro hd
      cases ht : p.freeObjectTearsDown object
      · rw [(hno ht).1, hlive] at hd
        exact Bool.noConfusion hd
      · have := hiff.1 ht
        exact ⟨this.1, by omega⟩
    · rintro ⟨a, b⟩
      exact (hyes (hiff.2 ⟨a, by omega⟩)).1
  · intro hd
    have ht : p.freeObjectTearsDown object = false := by
      apply Bool.eq_false_iff.2
      rw [Ne, hiff, hd]
      rintro ⟨a, _⟩
      exact Bool.noConfusion a
    exact ⟨ht, (hno ht).1⟩

/-- C16 (witness): on the example pool with 10 and 11 lent out, `destroy()`
followed by both releases takes the teardown branch once, at the second
release; without `destroy()` the two releases bring the counter to 0 and
the destructor does not run. -/
theorem teardown_iff_draining_and_zero_witness :
    teardowns { pool := ObjectPool.exampleTwoLent, lent := [10, 11] }
      [.destroy, .release 10, .release 11] ≤ 1 ∧
    teardowns { pool := ObjectPool.exampleTwoLent, lent := [10, 11] }
      [.destroy, .release 10, .release 11] = 1 ∧
    (({ pool := ObjectPool.exampleTwoLent, lent := [10, 11] } : Client).run
      [.destroy, .release 10]).pool.destructed = false ∧
    (({ pool := ObjectPool.exampleTwoLent, lent := [10, 11] } : Client).run
      [.destroy, .release 10, .release 11]).pool.destructed = true ∧
    (({ pool := ObjectPool.exampleTwoLent, lent := [10, 11] } : Client).run
      [.release 10, .release 11]).pool.m_objsCount = 0 ∧
    (({ pool := ObjectPool.exampleTwoLent, lent := [10, 11] } : Client).run
      [.release 10, .release 11]).pool.destructed = false :=
  ⟨(teardown_iff_draining_and_zero ObjectPool.exampleTwoLent 10
      { pool := ObjectPool.exampleTwoLent, lent := [10, 11] }
      [.destroy, .release 10, .release 11]).2.2.2.2.2.2 rfl (by decide),
   by decide, by decide, by decide, by decide, by decide⟩

/-- C18: for a pool constructed with start size `s ≥ 0` (in `int` range) and
normal size `N > 0`, in every state reached by acquires, releases of lent
objects and `destroy()` calls, whenever idle storage is non-empty its size
plus the counter is at most `max s N`; in particular the size of idle storage
never exceeds `max s N`. -/
theorem idle_storage_bounded (fabric : Nat → ObjPtr) (s : Nat) (N : Int) (ops : List Op)
    (hs : s < 2147483648) (hN : 0 < N)
    (hvalid : valid (fresh fabric s N) ops = true) :
    (((fresh fabric s N).run ops).pool.m_objs ≠ [] →
      (((fresh fabric s N).run ops).pool.m_objs.length : Int) +
        ((fresh fabric s N).run ops).pool.count ≤ max (s : Int) N) ∧
    (((fresh fabric s N).run ops).pool.m_objs.length : Int) ≤ max (s : Int) N ∧
    0 ≤ ((fresh fabric s N).run ops).pool.count := by
  have hf := fresh_eq fabric s N hs
  have h := run_idle_bound (max (s : Int) N) N hN (le_max_right _ _) ops (fresh fabric s N)
    (by rw [hf]) (by rw [hf]; simp)
    (by rw [hf]; intro _; simp) hvalid
  refine ⟨h.2.2, ?_, ?_⟩
  · by_cases hm : ((fresh fabric s N).run ops).pool.m_objs = []
    · rw [hm]
      simp only [List.length_nil, Nat.cast_zero]
      exact le_trans (le_of_lt hN) (le_max_right _ _)
    · have h1 := h.2.2 hm
      have h2 := h.2.1
      have h3 : (0 : Int) ≤ (((fresh fabric s N).run ops).lent.length : Int) :=
        Int.ofNat_nonneg _
      omega
  · have h2 := h.2.1
    have h3 : (0 : Int) ≤ (((fresh fabric s N).run ops).lent.length : Int) :=
      Int.ofNat_nonneg _
    simp only [ObjectPool.count]
    omega

/-- C18 (witness): start size 3, normal size 5 and the scenario of five acquires,
five releases, one acquire and one release: idle storage ends with 5 entries,
within `max 3 5`. -/
theorem idle_storage_bounded_witness :
    ((((fresh (fun k => k + 10) ((3 : Nat) : Int) 5).run scenarioOps).pool.m_objs.length :
      Int) ≤ max (((3 : Nat) : Int)) 5) ∧
    ((fresh (fun k => k + 10) 3 5).run scenarioOps).pool.m_objs.length = 5 := by
  have h := fresh_eq (fun k => k + 10) 3 5 (by norm_num)
  have key := idle_storage_bounded (fun k => k + 10) 3 5 scenarioOps (by decide) (by decide)
    (by rw [h]; decide)
  refine ⟨key.2.1, ?_⟩
  simp only [Nat.cast_ofNat] at h
  rw [h]
  decide

/-- C17 (as stated, refuted): two reachable states break the count.  With the
injective fabric returning 0, 1, 2, ..., whose first result is the null
pointer, the pool of start size 1 holds `[nullptr]`; an acquire drops that
entry and creates 1, so of the two created pointers only one is idle, lent
or discarded.  And with a fabric returning 10, 11, ..., after an acquire,
`destroy()` and the release that tears the pool down, one object was created
and discarded while the counter was put back to 1. -/
theorem created_count_fails :
    Function.Injective (fun k : Nat => k) ∧
    valid (fresh (fun k => k) 1 1) [.acquire] = true ∧
    ((fresh (fun k => k) 1 1).run [.acquire]).pool.created = [0, 1] ∧
    ((fresh (fun k => k) 1 1).run [.acquire]).pool.m_objs = [] ∧
    ((fresh (fun k => k) 1 1).run [.acquire]).lent = [1] ∧
    ((fresh (fun k => k) 1 1).run [.acquire]).pool.discarded = [] ∧
    ((fresh (fun k => k) 1 1).run [.acquire]).pool.creates = 2 ∧
    ((fresh (fun k => k) 1 1).run [.acquire]).pool.count = 1 ∧
    valid (fresh (fun k => k + 10) 1 1) [.acquire, .destroy, .release 10] = true ∧
    ((fresh (fun k => k + 10) 1 1).run [.acquire, .destroy, .release 10]).pool.creates = 1 ∧
    ((fresh (fun k => k + 10) 1 1).run [.acquire, .destroy, .release 10]).pool.m_objs = [] ∧
    ((fresh (fun k => k + 10) 1 1).run [.acquire, .destroy, .release 10]).pool.count = 1 ∧
    ((fresh (fun k => k + 10) 1 1).run [.acquire, .destroy, .release 10]).pool.discards = 1 ∧
    ((fresh (fun k => k + 10) 1 1).run
      [.acquire, .destroy, .release 10]).pool.destructed = true := by
  have h1 := fresh_eq (fun k => k) 1 1 (by norm_num)
  have h2 := fresh_eq (fun k => k + 10) 1 1 (by norm_num)
  simp only [Nat.cast_one] at h1 h2
  rw [h1, h2]
  exact ⟨fun a b h => h, by decide⟩

/-- C17 (amended): let the fabric return a non-null pointer distinct from all
it returned before, and let `c` be a state reached from a freshly
constructed pool by acquires, releases of lent objects and `destroy()`
calls.  Then the created pointers are exactly, each once, the idle ones, the
lent ones and the discarded ones: these three are pairwise disjoint, none
holds a pointer twice, and the number of `m_fabric` calls is the idle size
plus the number of outstanding handles plus the number of `m_freeFunc`
calls.  As long as the pool has not been torn down the number of outstanding
handles is the counter. -/
theorem no_aliasing (fabric : Nat → ObjPtr) (startSize normalSize : Int) (ops : List Op)
    (c : Client)
    (hlow : -2147483648 ≤ startSize) (hhigh : startSize < 2147483648)
    (hinj : Function.Injective fabric) (hnn : ∀ k, fabric k ≠ nullptr)
    (hvalid : valid (fresh fabric startSize normalSize) ops = true)
    (hc : c = (fresh fabric startSize normalSize).run ops) :
    List.Perm c.pool.created (c.pool.m_objs ++ c.lent ++ c.pool.discarded) ∧
    c.pool.created.Nodup ∧
    c.pool.m_objs.Nodup ∧ c.lent.Nodup ∧ c.pool.discarded.Nodup ∧
    List.Disjoint c.pool.m_objs c.lent ∧
    List.Disjoint c.pool.m_objs c.pool.discarded ∧
    List.Disjoint c.lent c.pool.discarded ∧
    (∀ o, o ∈ c.pool.created ↔ (o ∈ c.pool.m_objs ∨ o ∈ c.lent ∨ o ∈ c.pool.discarded)) ∧
    c.pool.creates = c.pool.m_objs.length + c.lent.length + c.pool.discards ∧
    (c.pool.destructed = false →
      c.pool.count = c.lent.length ∧
      (c.pool.creates : Int) = c.pool.m_objs.length + c.pool.count + c.pool.discards) := by
  subst hc
  have h0 := fresh_partition fabric startSize normalSize hlow hhigh
  have h := run_partition fabric hnn ops (fresh fabric startSize normalSize)
    h0.1 h0.2.1 h0.2.2.1 hvalid
  have hperm : List.Perm ((fresh fabric startSize normalSize).run ops).pool.created
      (((fresh fabric startSize normalSize).run ops).pool.m_objs ++
        ((fresh fabric startSize normalSize).run ops).lent ++
        ((fresh fabric startSize normalSize).run ops).pool.discarded) := by
    rw [List.perm_iff_count]
    intro a
    rw [h.2.1 a]
    simp only [List.count_append]
  have hnd : ((fresh fabric startSize normalSize).run ops).pool.created.Nodup := by
    rw [h.1]
    exact List.Nodup.map hinj (List.nodup_range _)
  have hnd2 := hperm.nodup_iff.1 hnd
  have hleft := List.nodup_append.1 hnd2
  have hinner := List.nodup_append.1 hleft.1
  have hlen := hperm.length_eq
  simp only [List.length_append] at hlen
  have hcreates : ((fresh fabric startSize normalSize).run ops).pool.creates =
      ((fresh fabric startSize normalSize).run ops).pool.m_objs.length +
        ((fresh fabric startSize normalSize).run ops).lent.length +
        ((fresh fabric startSize normalSize).run ops).pool.discards := by
    rw [ObjectPool.creates_eq_length_created, ObjectPool.discards_eq_length_discarded, hlen]
  refine ⟨hperm, hnd, hinner.1, hinner.2.1, hleft.2.1, hinner.2.2, ?_, ?_, ?_, hcreates, ?_⟩
  · intro o ho1 ho2
    exact hleft.2.2 (List.mem_append_left _ ho1) ho2
  · intro o ho1 ho2
    exact hleft.2.2 (List.mem_append_right _ ho1) ho2
  · intro o
    rw [hperm.mem_iff]
    simp only [List.mem_append, or_assoc]
  · intro hlive
    have hcnt := run_count ops (fresh fabric startSize normalSize) h0.2.2.2 hvalid h.2.2 hlive
    refine ⟨hcnt.1, ?_⟩
    simp only [ObjectPool.count]
    rw [hcnt.1, hcreates]
    push_cast
    ring

/-- C17 (amended, witness): the scenario with start size 3 and normal size 5
and the fabric returning 10, 11, ...: five objects were created and all
five are idle at the end, none twice. -/
theorem no_aliasing_witness :
    ((fresh (fun k => k + 10) 3 5).run scenarioOps).pool.m_objs.Nodup ∧
    ((fresh (fun k => k + 10) 3 5).run scenarioOps).pool.creates =
      ((fresh (fun k => k + 10) 3 5).run scenarioOps).pool.m_objs.length +
        ((fresh (fun k => k + 10) 3 5).run scenarioOps).lent.length +
        ((fresh (fun k => k + 10) 3 5).run scenarioOps).pool.discards ∧
    ((fresh (fun k => k + 10) 3 5).run scenarioOps).pool.m_objs = [11, 12, 13, 14, 10] := by
  have h := fresh_eq (fun k => k + 10) 3 5 (by norm_num)
  simp only [Nat.cast_ofNat] at h
  have key := no_aliasing (fun k => k + 10) 3 5 scenarioOps
    ((fresh (fun k => k + 10) 3 5).run scenarioOps) (by decide) (by decide)
    (fun a b hab => Nat.add_right_cancel hab) (fun k => Nat.succ_ne_zero (k + 9))
    (by rw [h]; decide) rfl
  refine ⟨key.2.2.1, key.2.2.2.2.2.2.2.2.2.1, ?_⟩
  rw [h]
  decide

end Client

end ObjectPoolModel
